import Mathlib

/-!
Verification of the incremental knowledge synchronization and retrieval
engine of the narrative-authoring backend.  The definitions below are a
shallow embedding of the Python sources under `backend/app/`:

* `knowledge_graph.py` — the `Entity` / `Relation` / `KnowledgeGraph` data
  model;
* `index_sync.py` — `IndexSyncManager.sync_node_delete`;
* `graph_editor.py` — `GraphEditor.update_entity` / `delete_entity` /
  `merge_entities` together with `_dedupe_relations` and rollback;
* `graph_retriever.py` — `_estimate_tokens`, `_node_summary`,
  `_truncate_context`, and the node-score fusion inside `retrieve_context`;
* `sync_strategy.py` — `SyncQueue.enqueue` / `process_ready`;
* `version_manager.py` — `delete_version`, `_cleanup_auto_snapshots`,
  `auto_snapshot_loop` / `_create_auto_snapshots`.

Python dictionaries are embedded as insertion-ordered association lists,
floating-point scores and timestamps as rationals, tasks returning results
or raising exceptions as `Except`-valued functions, and external
collaborators (vector search, the extraction oracle, persistence) as
explicit function parameters.
-/

/-! ## Association-list helpers (Python `dict` with insertion order) -/

/-- Python `d[k] = v`: overwrite in place when the key exists (keeping its
position), otherwise append at the end. -/
def dictSet (m : List (String × α)) (k : String) (v : α) : List (String × α) :=
  if m.any (fun p => p.1 = k) then
    m.map (fun p => if p.1 = k then (k, v) else p)
  else
    m ++ [(k, v)]

/-- Python `d.get(k, default)`. -/
def dictGetD (m : List (String × α)) (k : String) (d : α) : α :=
  match m.find? (fun p => p.1 = k) with
  | some p => p.2
  | none => d

/-- Python `d.get(k)` / `k in d` probing. -/
def dictGet? (m : List (String × α)) (k : String) : Option α :=
  match m.find? (fun p => p.1 = k) with
  | some p => some p.2
  | none => none

/-- Python `d.pop(k, None)`: the removed value (if any) and the remaining map. -/
def dictPop (m : List (String × α)) (k : String) : Option α × List (String × α) :=
  (dictGet? m k, m.filter (fun p => p.1 ≠ k))

/-- Overwrite the value at `k` only when the key is already present (models a
mutation through an aliased inner dictionary). -/
def dictWriteBack (m : List (String × α)) (k : String) (v : α) : List (String × α) :=
  m.map (fun p => if p.1 = k then (k, v) else p)

/-! ## Data model (`knowledge_graph.py`, `models.py`) -/

/-- `EntityType` enum of `knowledge_graph.py`. -/
inductive EntityType
  | character
  | location
  | item
  | event
  | organization
  | concept
deriving DecidableEq, Repr

/-- The string value of an `EntityType` member. -/
def EntityType.value : EntityType → String
  | .character => "character"
  | .location => "location"
  | .item => "item"
  | .event => "event"
  | .organization => "organization"
  | .concept => "concept"

/-- Python `EntityType(value)`: succeeds exactly on the enum's values
(raises `ValueError` otherwise, hence `Option`). -/
def EntityType.ofValue? (s : String) : Option EntityType :=
  if s = "character" then some .character
  else if s = "location" then some .location
  else if s = "item" then some .item
  else if s = "event" then some .event
  else if s = "organization" then some .organization
  else if s = "concept" then some .concept
  else none

/-- `RelationType` enum of `knowledge_graph.py`. -/
inductive RelationType
  | family
  | friend
  | enemy
  | lover
  | masterStudent
  | colleague
  | belongsTo
  | locatedAt
  | participatesIn
  | relatedTo
deriving DecidableEq, Repr

/-- The string value of a `RelationType` member. -/
def RelationType.value : RelationType → String
  | .family => "family"
  | .friend => "friend"
  | .enemy => "enemy"
  | .lover => "lover"
  | .masterStudent => "master_student"
  | .colleague => "colleague"
  | .belongsTo => "belongs_to"
  | .locatedAt => "located_at"
  | .participatesIn => "participates_in"
  | .relatedTo => "related_to"

/-- Free-form `properties` dict.  Only numeric values are ever read by the
core (the editor's `properties.get("strength", 0.0)`), so values are
embedded as rationals. -/
abbrev Props : Type := List (String × ℚ)

/-- `properties.get("strength", 0.0) or 0.0` in `GraphEditor._relation_score`. -/
def Props.strength (p : Props) : ℚ :=
  dictGetD p "strength" 0

/-- `Entity` model of `knowledge_graph.py`. -/
structure Entity where
  id : String
  name : String
  type : EntityType
  description : String
  aliases : List String
  properties : Props
  source_refs : List String
deriving DecidableEq, Repr

/-- `Relation` model of `knowledge_graph.py`. -/
structure Relation where
  id : String
  source_id : String
  target_id : String
  relation_type : RelationType
  relation_name : String
  description : String
  properties : Props
  source_refs : List String
deriving DecidableEq, Repr

/-- `KnowledgeGraph` model of `knowledge_graph.py`; the `last_updated`
timestamp is embedded as a rational number of seconds. -/
structure KnowledgeGraph where
  project_id : String
  entities : List Entity
  relations : List Relation
  last_updated : ℚ
deriving DecidableEq, Repr

/-- `StoryNode` model of `models.py` (the fields the core reads). -/
structure StoryNode where
  id : String
  title : String
  content : String
  narrative_order : Nat
  timeline_order : ℚ
  location_tag : String
  characters : List String
deriving DecidableEq, Repr

/-! ## `IndexSyncManager.sync_node_delete` (`index_sync.py`) -/

/-- `SyncResult` model of `index_sync.py`. -/
structure SyncResult where
  success : Bool
  vector_updated : Bool
  graph_updated : Bool
  new_entities : List Entity
  new_relations : List Relation
  removed_entities : List String
  removed_relations : List String
  warnings : List String
deriving DecidableEq, Repr

/-- The entity loop of `sync_node_delete`: every entity whose `source_refs`
contains the node id has the id stripped; if the stripped list is empty the
entity is dropped and its id recorded.  Entities not referencing the node
are left untouched.  Returns (removed ids in iteration order, remaining
entities). -/
def sync_delete_entities (node_id : String) : List Entity → List String × List Entity
  | [] => ([], [])
  | e :: es =>
    if node_id ∈ e.source_refs then
      let refs := e.source_refs.filter (fun r => r ≠ node_id)
      if refs.isEmpty then
        let (ids, rest) := sync_delete_entities node_id es
        (e.id :: ids, rest)
      else
        let (ids, rest) := sync_delete_entities node_id es
        (ids, { e with source_refs := refs } :: rest)
    else
      let (ids, rest) := sync_delete_entities node_id es
      (ids, e :: rest)

/-- The relation loop of `sync_node_delete`, mirroring `sync_delete_entities`. -/
def sync_delete_relations (node_id : String) : List Relation → List String × List Relation
  | [] => ([], [])
  | r :: rs =>
    if node_id ∈ r.source_refs then
      let refs := r.source_refs.filter (fun x => x ≠ node_id)
      if refs.isEmpty then
        let (ids, rest) := sync_delete_relations node_id rs
        (r.id :: ids, rest)
      else
        let (ids, rest) := sync_delete_relations node_id rs
        (ids, { r with source_refs := refs } :: rest)
    else
      let (ids, rest) := sync_delete_relations node_id rs
      (ids, r :: rest)

/-- `IndexSyncManager.sync_node_delete`: de-indexing the node is an external
effect on the vector store; the graph transformation and the reported
`SyncResult` are embedded exactly. -/
def sync_node_delete (node_id : String) (g : KnowledgeGraph) :
    SyncResult × KnowledgeGraph :=
  let (removed_entities, entities) := sync_delete_entities node_id g.entities
  let (removed_relations, relations) := sync_delete_relations node_id g.relations
  ({ success := true
     vector_updated := true
     graph_updated := true
     new_entities := []
     new_relations := []
     removed_entities := removed_entities
     removed_relations := removed_relations
     warnings := [] },
   { g with entities := entities, relations := relations })

/-- Well-formedness of a graph as stated by the spec: entity ids are unique
and every relation endpoint resolves to an existing entity. -/
def graphWellFormed (g : KnowledgeGraph) : Prop :=
  (g.entities.map (fun e => e.id)).Nodup ∧
  ∀ r ∈ g.relations,
    (∃ e ∈ g.entities, e.id = r.source_id) ∧ (∃ e ∈ g.entities, e.id = r.target_id)

instance (g : KnowledgeGraph) : Decidable (graphWellFormed g) := by
  unfold graphWellFormed
  infer_instance

/-- No element of the graph has an empty `source_refs` list (the emptiness
invariant of the spec). -/
def noEmptySourceRefs (g : KnowledgeGraph) : Prop :=
  (∀ e ∈ g.entities, e.source_refs ≠ []) ∧ (∀ r ∈ g.relations, r.source_refs ≠ [])

instance (g : KnowledgeGraph) : Decidable (noEmptySourceRefs g) := by
  unfold noEmptySourceRefs
  infer_instance

/-! ## `GraphEditor` (`graph_editor.py`) -/

/-- Failure cases of the editor; Python raises `ValueError` with distinct
messages. -/
inductive EditorError
  | entityNotFound
  | selfMerge
  | unsupportedField (key : String)
  | invalidValue (key : String)
deriving DecidableEq, Repr

/-- Dynamic values of the untyped `updates` payload of `update_entity`.
`vType` models passing an `EntityType` instance, `vStr` a string, `vStrList`
a list of strings, `vProps` a dict; `vOther` stands for any other Python
value (always rejected by validation). -/
inductive UpdateValue
  | vStr (s : String)
  | vStrList (l : List String)
  | vProps (p : Props)
  | vType (t : EntityType)
  | vOther
deriving DecidableEq, Repr

/-- `GraphEditor._find_entity`: first entity with the given id. -/
def find_entity (g : KnowledgeGraph) (entity_id : String) : Option Entity :=
  g.entities.find? (fun e => e.id = entity_id)

/-- One step of `GraphEditor._normalize_entity_updates`: validate a single
`(key, value)` pair and produce the normalized value stored in the
`normalized` dict. -/
def normalizeEntityUpdate (key : String) (value : UpdateValue) :
    Except EditorError UpdateValue :=
  if key ∉ ["name", "type", "description", "aliases", "properties", "source_refs"] then
    .error (.unsupportedField key)
  else if key = "type" then
    match value with
    | .vType t => .ok (.vType t)
    | .vStr s =>
      match EntityType.ofValue? s with
      | some t => .ok (.vType t)
      | none => .error (.invalidValue key)
    | _ => .error (.invalidValue key)
  else if key = "aliases" ∨ key = "source_refs" then
    match value with
    | .vStrList l => .ok (.vStrList l)
    | _ => .error (.invalidValue key)
  else if key = "properties" then
    match value with
    | .vProps p => .ok (.vProps p)
    | _ => .error (.invalidValue key)
  else
    match value with
    | .vStr s => .ok (.vStr s)
    | _ => .error (.invalidValue key)

/-- `GraphEditor._normalize_entity_updates`: fold the payload into the
`normalized` dict, failing on the first invalid pair. -/
def normalize_entity_updates (updates : List (String × UpdateValue)) :
    Except EditorError (List (String × UpdateValue)) :=
  updates.foldlM
    (fun acc kv =>
      match normalizeEntityUpdate kv.1 kv.2 with
      | .ok v => .ok (dictSet acc kv.1 v)
      | .error e => .error e)
    []

/-- `setattr(entity, key, value)` for a normalized key/value pair. -/
def applyEntityField (e : Entity) (key : String) (value : UpdateValue) : Entity :=
  match key, value with
  | "name", .vStr s => { e with name := s }
  | "type", .vType t => { e with type := t }
  | "description", .vStr s => { e with description := s }
  | "aliases", .vStrList l => { e with aliases := l }
  | "properties", .vProps p => { e with properties := p }
  | "source_refs", .vStrList l => { e with source_refs := l }
  | _, _ => e

/-- Mutate the first entity carrying the given id (the object returned by
`_find_entity`), leaving the rest of the list untouched. -/
def updateFirstEntity (es : List Entity) (entity_id : String) (f : Entity → Entity) :
    List Entity :=
  match es with
  | [] => []
  | e :: rest =>
    if e.id = entity_id then f e :: rest
    else e :: updateFirstEntity rest entity_id f

/-- The `except` handler shared by all three mutating editor operations:
restore `entities`, `relations` and `last_updated` from the pre-operation
deep copy onto the graph state observed at the raise point, and re-raise. -/
def editorRollback (snapshot current : KnowledgeGraph) (e : EditorError) :
    KnowledgeGraph × Except EditorError α :=
  ({ current with
      entities := snapshot.entities
      relations := snapshot.relations
      last_updated := snapshot.last_updated },
   .error e)

/-- `GraphEditor.update_entity`; `now` stands for `datetime.utcnow()` in
`_touch_graph`.  Returns the (possibly rolled-back) graph and the outcome. -/
def update_entity (now : ℚ) (g : KnowledgeGraph) (entity_id : String)
    (updates : List (String × UpdateValue)) :
    KnowledgeGraph × Except EditorError Entity :=
  match find_entity g entity_id with
  | none => editorRollback g g .entityNotFound
  | some entity =>
    match normalize_entity_updates updates with
    | .error e => editorRollback g g e
    | .ok normalized =>
      let entity := normalized.foldl (fun acc kv => applyEntityField acc kv.1 kv.2) entity
      let g := { g with entities := updateFirstEntity g.entities entity_id (fun _ => entity) }
      ({ g with last_updated := now }, .ok entity)

/-- `GraphEditor.delete_entity`: cascade-remove incident relations, then the
entity; returns the number of relations removed. -/
def delete_entity (now : ℚ) (g : KnowledgeGraph) (entity_id : String) :
    KnowledgeGraph × Except EditorError Nat :=
  match find_entity g entity_id with
  | none => editorRollback g g .entityNotFound
  | some _ =>
    let before_count := g.relations.length
    let relations := g.relations.filter
      (fun r => r.source_id ≠ entity_id ∧ r.target_id ≠ entity_id)
    let deleted_relations := before_count - relations.length
    let entities := g.entities.filter (fun e => e.id ≠ entity_id)
    ({ g with entities := entities, relations := relations, last_updated := now },
     .ok deleted_relations)

/-- Python code-point comparison of strings (`sorted` on two strings). -/
def pyStrLtChars : List Char → List Char → Bool
  | [], [] => false
  | [], _ :: _ => true
  | _ :: _, [] => false
  | a :: as, b :: bs =>
    if a.val < b.val then true
    else if b.val < a.val then false
    else pyStrLtChars as bs

/-- Python `a < b` on strings. -/
def pyStrLt (a b : String) : Bool :=
  pyStrLtChars a.data b.data

/-- The dedup key of `GraphEditor._dedupe_relations`:
`tuple(sorted([source_id, target_id]) + [relation_type.value, relation_name])`. -/
def relationKey (r : Relation) : String × String × String × String :=
  if pyStrLt r.target_id r.source_id then
    (r.target_id, r.source_id, r.relation_type.value, r.relation_name)
  else
    (r.source_id, r.target_id, r.relation_type.value, r.relation_name)

/-- `GraphEditor._relation_score`. -/
def relation_score (r : Relation) : ℚ :=
  Props.strength r.properties * 1000 + r.description.length

/-- `GraphEditor._pick_relation`: keep the incumbent unless the newcomer
scores strictly higher. -/
def pick_relation (first second : Relation) : Relation :=
  if relation_score first < relation_score second then second else first

/-- The dict fold inside `GraphEditor._dedupe_relations`: key positions keep
first-insertion order, values may be replaced by `_pick_relation`. -/
def dedupeRelationsFold
    (acc : List ((String × String × String × String) × Relation)) :
    List Relation → List ((String × String × String × String) × Relation)
  | [] => acc
  | r :: rs =>
    match acc.find? (fun p => p.1 = relationKey r) with
    | none => dedupeRelationsFold (acc ++ [(relationKey r, r)]) rs
    | some existing =>
      dedupeRelationsFold
        (acc.map (fun p =>
          if p.1 = relationKey r then (p.1, pick_relation existing.2 r) else p))
        rs

/-- `GraphEditor._dedupe_relations`. -/
def dedupe_relations (rs : List Relation) : List Relation :=
  (dedupeRelationsFold [] rs).map (fun p => p.2)

/-- Redirect one relation's endpoints from the merged-away entity onto the
merge target (the relation loop of `merge_entities`). -/
def redirectRelation (from_id into_id : String) (r : Relation) : Relation :=
  let r := if r.source_id = from_id then { r with source_id := into_id } else r
  if r.target_id = from_id then { r with target_id := into_id } else r

/-- The merged alias set of `merge_entities`:
`set(target.aliases) ∪ {source.name} ∪ set(source.aliases)` minus
`target.name`.  Python materializes the set in unspecified order; the
embedding fixes first-insertion order, which realizes the same set. -/
def mergedAliases (source target : Entity) : List String :=
  ((target.aliases ++ [source.name] ++ source.aliases).dedup).filter
    (fun a => a ≠ target.name)

/-- `GraphEditor.merge_entities`. -/
def merge_entities (now : ℚ) (g : KnowledgeGraph) (from_id into_id : String) :
    KnowledgeGraph × Except EditorError Entity :=
  if from_id = into_id then editorRollback g g .selfMerge
  else
    match find_entity g from_id, find_entity g into_id with
    | none, _ => editorRollback g g .entityNotFound
    | _, none => editorRollback g g .entityNotFound
    | some source, some target =>
      let target := { target with aliases := mergedAliases source target }
      let relations := g.relations.map (redirectRelation source.id target.id)
      let target :=
        { target with
            source_refs := (target.source_refs ++ source.source_refs).dedup }
      let entities := updateFirstEntity g.entities into_id (fun _ => target)
      let entities := entities.filter (fun e => e.id ≠ source.id)
      let relations := dedupe_relations relations
      ({ g with entities := entities, relations := relations, last_updated := now },
       .ok target)

/-! ## `GraphRetriever` (`graph_retriever.py`) -/

/-- `_estimate_tokens`: 0 for empty text, otherwise `max(1, len(text) // 4)`. -/
def estimate_tokens (text : String) : Nat :=
  if text.length = 0 then 0 else max 1 (text.length / 4)

/-- Python `str.strip()`. -/
def pyStrip (s : String) : String :=
  s.trim

/-- Python slicing `s[:n]` on code points. -/
def pyTake (s : String) (n : Nat) : String :=
  String.mk (s.data.take n)

/-- `_node_summary`. -/
def node_summary (node : StoryNode) : String :=
  let content := (pyStrip node.content).replace "\n" " "
  let content := if 120 < content.length then pyTake content 117 ++ "..." else content
  let meta_parts :=
    (if node.location_tag ≠ "" then ["地点=" ++ node.location_tag] else []) ++
    (if node.characters ≠ [] then
      ["角色=" ++ String.intercalate "," (node.characters.take 5)] else [])
  let meta :=
    if meta_parts ≠ [] then "（" ++ String.intercalate "; " meta_parts ++ "）" else ""
  node.title ++ meta ++ "：" ++ content

/-- `KnowledgeEvidence` model (the fields `_truncate_context` reads). -/
structure KnowledgeEvidence where
  source_id : String
  title : Option String
  category : Option String
  snippet : String
  score : Option ℚ
deriving DecidableEq, Repr

/-- `RetrievalContext` model. -/
structure RetrievalContext where
  relevant_nodes : List StoryNode
  relevant_knowledge : List KnowledgeEvidence
  relevant_entities : List Entity
  relevant_relations : List Relation
  token_count : Nat
deriving DecidableEq, Repr

/-- The payload of a `_RankedItem`. -/
inductive RankedValue
  | node (n : StoryNode)
  | knowledge (k : KnowledgeEvidence)
  | entity (e : Entity)
  | relation (r : Relation)
deriving DecidableEq, Repr

/-- `_RankedItem`. -/
structure RankedItem where
  score : Nat
  value : RankedValue
deriving DecidableEq, Repr

/-- Stable insertion of `a` behind every element whose key is at least
`key a`; `sortStableDesc` below therefore sorts descending while keeping
the original order of equal keys, exactly like Python's stable
`list.sort(key=..., reverse=True)`. -/
def insertDescBy (key : α → Nat) (a : α) : List α → List α
  | [] => [a]
  | x :: xs => if key x < key a then a :: x :: xs else x :: insertDescBy key a xs

/-- Stable sort, descending by `key`. -/
def sortStableDesc (key : α → Nat) (l : List α) : List α :=
  l.foldl (fun acc a => insertDescBy key a acc) []

/-- The text whose length is charged for one ranked item in `add_item`. -/
def rankedItemText : RankedValue → String
  | .node n => node_summary n
  | .knowledge k => k.snippet
  | .entity e => e.name ++ " " ++ e.description
  | .relation r => r.relation_name ++ " " ++ r.description

/-- The accumulator of the `add_item` closure. -/
structure TruncAcc where
  nodes : List StoryNode
  knowledge : List KnowledgeEvidence
  entities : List Entity
  relations : List Relation
  tokens : Nat
deriving DecidableEq, Repr

/-- `add_item`: charge the item's estimated cost and keep it only when it
still fits inside `max_tokens`. -/
def addItem (max_tokens : Nat) (acc : TruncAcc) (item : RankedItem) : TruncAcc :=
  let cost := estimate_tokens (rankedItemText item.value)
  if acc.tokens + cost ≤ max_tokens then
    match item.value with
    | .node n => { acc with nodes := acc.nodes ++ [n], tokens := acc.tokens + cost }
    | .knowledge k =>
      { acc with knowledge := acc.knowledge ++ [k], tokens := acc.tokens + cost }
    | .entity e => { acc with entities := acc.entities ++ [e], tokens := acc.tokens + cost }
    | .relation r =>
      { acc with relations := acc.relations ++ [r], tokens := acc.tokens + cost }
  else
    acc

/-- The main loop of `_truncate_context`: add items in ranked order,
stopping once the running total reaches the budget. -/
def addItems (max_tokens : Nat) (acc : TruncAcc) : List RankedItem → TruncAcc
  | [] => acc
  | item :: rest =>
    let acc := addItem max_tokens acc item
    if max_tokens ≤ acc.tokens then acc else addItems max_tokens acc rest

/-- The priority-ranked item list built at the top of `_truncate_context`. -/
def rankedItems (context : RetrievalContext) (direct_entity_ids : List String)
    (relation_layers : List Relation) (entity_layers : List Entity) :
    List RankedItem :=
  let layer_entity_ids := entity_layers.map (fun e => e.id)
  let ranked :=
    context.relevant_nodes.map (fun n => RankedItem.mk 3 (.node n)) ++
    context.relevant_knowledge.map (fun k => RankedItem.mk 2 (.knowledge k)) ++
    context.relevant_entities.map (fun e =>
      if e.id ∈ direct_entity_ids then RankedItem.mk 3 (.entity e)
      else if e.id ∈ layer_entity_ids then RankedItem.mk 2 (.entity e)
      else RankedItem.mk 1 (.entity e)) ++
    context.relevant_relations.map (fun r =>
      if r ∈ relation_layers then RankedItem.mk 2 (.relation r)
      else RankedItem.mk 3 (.relation r))
  sortStableDesc (fun item => item.score) ranked

/-- `GraphRetriever._truncate_context`. -/
def truncate_context (context : RetrievalContext) (max_tokens : Nat)
    (direct_entity_ids : List String) (relation_layers : List Relation)
    (entity_layers : List Entity) : RetrievalContext :=
  let ranked := rankedItems context direct_entity_ids relation_layers entity_layers
  let acc := addItems max_tokens (TruncAcc.mk [] [] [] [] 0) ranked
  { relevant_nodes := acc.nodes
    relevant_knowledge := acc.knowledge
    relevant_entities := acc.entities
    relevant_relations := acc.relations
    token_count := acc.tokens }

/-- The token total the returned lists realize under `_estimate_tokens`. -/
def realizedTokens (c : RetrievalContext) : Nat :=
  (c.relevant_nodes.map (fun n => estimate_tokens (rankedItemText (.node n)))).sum +
  (c.relevant_knowledge.map (fun k => estimate_tokens (rankedItemText (.knowledge k)))).sum +
  (c.relevant_entities.map (fun e => estimate_tokens (rankedItemText (.entity e)))).sum +
  (c.relevant_relations.map (fun r => estimate_tokens (rankedItemText (.relation r)))).sum

/-- Modelled from the claim's words: a per-item token cost of
`max(1, ceil(text_length / 4))`. -/
def claimedCeilCost (text : String) : Nat :=
  max 1 ((text.length + 3) / 4)

/-- Modelled from the claim's words: the token total of the returned lists
under the claimed `max(1, ceil(len/4))` cost. -/
def claimedCeilTokens (c : RetrievalContext) : Nat :=
  (c.relevant_nodes.map (fun n => claimedCeilCost (rankedItemText (.node n)))).sum +
  (c.relevant_knowledge.map (fun k => claimedCeilCost (rankedItemText (.knowledge k)))).sum +
  (c.relevant_entities.map (fun e => claimedCeilCost (rankedItemText (.entity e)))).sum +
  (c.relevant_relations.map (fun r => claimedCeilCost (rankedItemText (.relation r)))).sum

/-- The per-node score entry kept in the `node_scores` dict of
`retrieve_context` (missing dict keys read as `0.0` through
`entry.get(..., 0.0)`). -/
structure NodeSignal where
  vector : ℚ
  keyword : ℚ
  bm25 : ℚ
deriving DecidableEq, Repr

/-- The three ranked hit lists (node id, reported score) one expanded query
obtains from the vector, keyword and BM25 search backends. -/
structure ExpansionHits where
  vector : List (String × ℚ)
  keyword : List (String × ℚ)
  bm25 : List (String × ℚ)
deriving DecidableEq, Repr

/-- Which signal a hit updates. -/
inductive SignalKind
  | vector
  | keyword
  | bm25
deriving DecidableEq, Repr

/-- Read one signal off an entry. -/
def NodeSignal.get : NodeSignal → SignalKind → ℚ
  | s, .vector => s.vector
  | s, .keyword => s.keyword
  | s, .bm25 => s.bm25

/-- `entry[sig] = max(entry[sig], score)`. -/
def NodeSignal.maxAt : NodeSignal → SignalKind → ℚ → NodeSignal
  | s, .vector, q => { s with vector := max s.vector q }
  | s, .keyword, q => { s with keyword := max s.keyword q }
  | s, .bm25, q => { s with bm25 := max s.bm25 q }

/-- `node_scores.setdefault(id, {..0.0..})` followed by
`entry[sig] = max(entry[sig], score)`. -/
def updSignal (scores : List (String × NodeSignal)) (sig : SignalKind)
    (id : String) (score : ℚ) : List (String × NodeSignal) :=
  if scores.any (fun p => p.1 = id) then
    scores.map (fun p => if p.1 = id then (p.1, p.2.maxAt sig score) else p)
  else
    scores ++ [(id, (NodeSignal.mk 0 0 0).maxAt sig score)]

/-- Apply every hit of one signal for one expansion. -/
def applyHits (sig : SignalKind) (scores : List (String × NodeSignal))
    (hits : List (String × ℚ)) : List (String × NodeSignal) :=
  hits.foldl (fun acc h => updSignal acc sig h.1 h.2) scores

/-- The `node_scores` accumulation loop of `retrieve_context`: the three
searches run per expanded query, keeping per-node, per-signal maxima. -/
def collectNodeScores (expansions : List ExpansionHits) : List (String × NodeSignal) :=
  expansions.foldl
    (fun acc exp =>
      applyHits .bm25 (applyHits .keyword (applyHits .vector acc exp.vector) exp.keyword)
        exp.bm25)
    []

/-- Python `max(values, default=0.0)` over one signal of the score dict. -/
def maxSignal (scores : List (String × NodeSignal)) (sig : SignalKind) : ℚ :=
  match scores.map (fun p => p.2.get sig) with
  | [] => 0
  | v :: vs => vs.foldl max v

/-- The fused score of one entry, exactly as computed in `retrieve_context`:
the keyword and BM25 maxima are divided by `max(1.0, signal_max)` when the
signal fired at all, the vector signal enters raw. -/
def combinedNodeScore (max_keyword max_bm25 : ℚ) (entry : NodeSignal) : ℚ :=
  let keyword_norm := if max_keyword ≠ 0 then entry.keyword / max 1 max_keyword else 0
  let bm25_norm := if max_bm25 ≠ 0 then entry.bm25 / max 1 max_bm25 else 0
  entry.vector * 0.6 + keyword_norm * 0.2 + bm25_norm * 0.2

/-- The `ranked_nodes` score list of `retrieve_context` (node id paired with
its combined score, in dict order). -/
def nodeCombinedScores (expansions : List ExpansionHits) : List (String × ℚ) :=
  let scores := collectNodeScores expansions
  let max_keyword := maxSignal scores .keyword
  let max_bm25 := maxSignal scores .bm25
  scores.map (fun p => (p.1, combinedNodeScore max_keyword max_bm25 p.2))

/-- All scores one node receives from one signal across every expansion, in
processing order. -/
def hitsFor (expansions : List ExpansionHits) (sig : SignalKind) (id : String) :
    List ℚ :=
  (expansions.flatMap (fun exp =>
    match sig with
    | .vector => exp.vector
    | .keyword => exp.keyword
    | .bm25 => exp.bm25)).filterMap
    (fun h => if h.1 = id then some h.2 else none)

/-- Fold-maximum starting from the dict's `0.0` initializer. -/
def listMax0 (l : List ℚ) : ℚ :=
  l.foldl max 0

/-- Modelled from the claim's words: the fused score with every signal,
including the vector signal, divided by its own maximum across all
candidates (0 when the signal never fired for any candidate). -/
def claimedNodeScore (max_vector max_keyword max_bm25 : ℚ) (entry : NodeSignal) : ℚ :=
  (if max_vector ≠ 0 then entry.vector / max_vector else 0) * 0.6 +
  (if max_keyword ≠ 0 then entry.keyword / max_keyword else 0) * 0.2 +
  (if max_bm25 ≠ 0 then entry.bm25 / max_bm25 else 0) * 0.2

/-! ## `SyncQueue` (`sync_strategy.py`) -/

/-- `SyncMode` enum. -/
inductive SyncMode
  | immediate
  | debounced
  | batch
  | manual
deriving DecidableEq, Repr

/-- `SyncConfig`; the integer windows are compared against elapsed seconds,
embedded as rationals via the usual coercion. -/
structure SyncConfig where
  vector_sync_mode : SyncMode
  graph_sync_mode : SyncMode
  debounce_seconds : ℤ
  batch_size : Nat
  batch_timeout_seconds : ℤ
deriving DecidableEq, Repr

/-- The mutable maps of a `SyncQueue`; outer keys are project ids, inner
keys node ids. -/
structure SyncQueueState where
  pending_updates : List (String × List (String × StoryNode))
  pending_old_nodes : List (String × List (String × Option StoryNode))
  last_update_time : List (String × List (String × ℚ))
deriving DecidableEq, Repr

/-- The queue state holding no pending work. -/
def emptyQueueState : SyncQueueState :=
  SyncQueueState.mk [] [] []

/-- `SyncQueue.enqueue`; `now` stands for `datetime.utcnow()`. -/
def enqueue (now : ℚ) (st : SyncQueueState) (project_id : String)
    (node : StoryNode) (old_node : Option StoryNode) : SyncQueueState :=
  let pending := dictGetD st.pending_updates project_id []
  let pending_updates := dictSet st.pending_updates project_id (dictSet pending node.id node)
  let old_nodes := dictGetD st.pending_old_nodes project_id []
  let old_nodes :=
    if ¬ old_nodes.any (fun p => p.1 = node.id) ∨ old_node ≠ none then
      dictSet old_nodes node.id old_node
    else old_nodes
  let pending_old_nodes := dictSet st.pending_old_nodes project_id old_nodes
  let times := dictGetD st.last_update_time project_id []
  let last_update_time := dictSet st.last_update_time project_id (dictSet times node.id now)
  SyncQueueState.mk pending_updates pending_old_nodes last_update_time

/-- The ready-node selection of `process_ready` for one project: per-node
debounce ageing in debounced mode, whole-pending-set readiness in batch
mode. -/
def readyNodeIds (config : SyncConfig) (now : ℚ)
    (pending : List (String × StoryNode)) (last_updates : List (String × ℚ)) :
    List String :=
  if config.graph_sync_mode = .batch then
    let oldest :=
      match last_updates.map (fun p => p.2) with
      | [] => now
      | v :: vs => vs.foldl min v
    let batch_ready := config.batch_size ≤ pending.length
    let timeout_ready := (config.batch_timeout_seconds : ℚ) ≤ now - oldest
    if batch_ready ∨ timeout_ready then pending.map (fun p => p.1) else []
  else
    (last_updates.filter (fun p => (config.debounce_seconds : ℚ) ≤ now - p.2)).map
      (fun p => p.1)

/-- The reconciliation backend `process_ready` delegates to:
`IndexSyncManager.sync_node_update(project_id, old_node, new_node, graph)`
returning the `SyncResult` and the updated in-memory graph.  The manager is
an injected dependency, so it enters the embedding as a function. -/
abbrev SyncManagerModel :=
  String → Option StoryNode → StoryNode → KnowledgeGraph → SyncResult × KnowledgeGraph

/-- The `RuntimeError` raised when the queue has no manager. -/
inductive QueueError
  | managerRequired
deriving DecidableEq, Repr

/-- The per-node loop of `process_ready` over the ready ids: pop the node,
its old node and its timestamp, then reconcile, threading the shared
`current_graph`. -/
def processNodes (manager : SyncManagerModel) (project_id : String) :
    List String →
    List (String × StoryNode) → List (String × Option StoryNode) →
    List (String × ℚ) → KnowledgeGraph → List SyncResult →
    List (String × StoryNode) × List (String × Option StoryNode) ×
      List (String × ℚ) × KnowledgeGraph × List SyncResult
  | [], pending, old_nodes, last_updates, graph, results =>
    (pending, old_nodes, last_updates, graph, results)
  | node_id :: rest, pending, old_nodes, last_updates, graph, results =>
    let (node?, pending) := dictPop pending node_id
    let (old?, old_nodes) := dictPop old_nodes node_id
    let (_, last_updates) := dictPop last_updates node_id
    match node? with
    | none => processNodes manager project_id rest pending old_nodes last_updates graph results
    | some node =>
      let old_node := old?.join
      let (result, graph) := manager project_id old_node node graph
      processNodes manager project_id rest pending old_nodes last_updates graph
        (results ++ [result])

/-- The body of `process_ready` for one project id: skip when nothing is
pending or nothing is ready, otherwise load the project's graph once,
reconcile every ready node, write the inner maps back (they are aliased
into the outer maps only when the project key exists) and drop the
project's keys entirely once its pending map empties. -/
def processProject (manager : SyncManagerModel) (load_graph : String → KnowledgeGraph)
    (config : SyncConfig) (now : ℚ) (st : SyncQueueState) (project_id : String) :
    List SyncResult × SyncQueueState :=
  let pending := dictGetD st.pending_updates project_id []
  if pending.isEmpty then ([], st)
  else
    let last_updates := dictGetD st.last_update_time project_id []
    let ready := readyNodeIds config now pending last_updates
    if ready.isEmpty then ([], st)
    else
      let graph := load_graph project_id
      let old_nodes := dictGetD st.pending_old_nodes project_id []
      let (pending, old_nodes, last_updates, _graph, results) :=
        processNodes manager project_id ready pending old_nodes last_updates graph []
      let st :=
        SyncQueueState.mk
          (dictWriteBack st.pending_updates project_id pending)
          (dictWriteBack st.pending_old_nodes project_id old_nodes)
          (dictWriteBack st.last_update_time project_id last_updates)
      let st :=
        if pending.isEmpty then
          SyncQueueState.mk
            ((dictPop st.pending_updates project_id).2)
            ((dictPop st.pending_old_nodes project_id).2)
            ((dictPop st.last_update_time project_id).2)
        else st
      (results, st)

/-- `SyncQueue.process_ready`.  Graph persistence (`load_graph` /
`save_graph`) is an external effect; the loaded graph enters through the
`load_graph` parameter and the saved one is not part of the queue state. -/
def process_ready (manager : Option SyncManagerModel)
    (load_graph : String → KnowledgeGraph) (config : SyncConfig) (now : ℚ)
    (st : SyncQueueState) (project_id : Option String) :
    Except QueueError (List SyncResult × SyncQueueState) :=
  if config.graph_sync_mode ≠ .debounced ∧ config.graph_sync_mode ≠ .batch then
    .ok ([], st)
  else
    match manager with
    | none => .error .managerRequired
    | some manager =>
      let project_ids :=
        match project_id with
        | some p => [p]
        | none => st.pending_updates.map Prod.fst
      let (results, st) :=
        project_ids.foldl
          (fun acc p =>
            let (results, st) := processProject manager load_graph config now acc.2 p
            (acc.1 ++ results, st))
          ([], st)
      .ok (results, st)

/-! ## `VersionManager` (`version_manager.py`, `versioning.py`) -/

/-- `SnapshotType` enum of `versioning.py`. -/
inductive SnapshotType
  | auto
  | manual
  | milestone
  | preSync
deriving DecidableEq, Repr

/-- The string value of a `SnapshotType` member. -/
def SnapshotType.value : SnapshotType → String
  | .auto => "auto"
  | .manual => "manual"
  | .milestone => "milestone"
  | .preSync => "pre_sync"

/-- One row of `VersionStorage.list_snapshots` (the fields
`delete_version` and `_cleanup_auto_snapshots` read). -/
structure SnapshotMeta where
  version : Nat
  snapshot_type : SnapshotType
deriving DecidableEq, Repr

/-- Failure cases of `delete_version`: `FileNotFoundError` for a missing
version, `ValueError` for a milestone. -/
inductive VersionError
  | snapshotNotFound
  | milestoneProtected
deriving DecidableEq, Repr

/-- `VersionManager.delete_version` over a project's snapshot listing:
refuse a missing version and a milestone, otherwise remove the version.
Returns the listing after the storage delete. -/
def delete_version (snapshots : List SnapshotMeta) (version : Nat) :
    Except VersionError (List SnapshotMeta) :=
  match snapshots.find? (fun item => item.version = version) with
  | none => .error .snapshotNotFound
  | some target =>
    if target.snapshot_type.value = SnapshotType.milestone.value then
      .error .milestoneProtected
    else
      .ok (snapshots.filter (fun item => item.version ≠ version))

/-- Stable insertion behind every element with a key at most `key a`;
`sortStableAsc` sorts ascending like Python's stable `sorted(key=...)`. -/
def insertAscBy (key : α → Nat) (a : α) : List α → List α
  | [] => [a]
  | x :: xs => if key a < key x then a :: x :: xs else x :: insertAscBy key a xs

/-- Stable sort, ascending by `key`. -/
def sortStableAsc (key : α → Nat) (l : List α) : List α :=
  l.foldl (fun acc a => insertAscBy key a acc) []

/-- The prune set of `VersionManager._cleanup_auto_snapshots`: the oldest
AUTO-kind snapshots beyond `max_auto_snapshots`, by ascending version. -/
def cleanupToDelete (snapshots : List SnapshotMeta) (max_auto_snapshots : Nat) :
    List SnapshotMeta :=
  let autos := snapshots.filter
    (fun item => item.snapshot_type.value = SnapshotType.auto.value)
  if autos.length ≤ max_auto_snapshots then []
  else
    let autos_sorted := sortStableAsc (fun item => item.version) autos
    autos_sorted.take (autos_sorted.length - max_auto_snapshots)

/-- The snapshot listing `_cleanup_auto_snapshots` leaves behind (each
pruned version is deleted from storage). -/
def cleanup_auto_snapshots (snapshots : List SnapshotMeta)
    (max_auto_snapshots : Nat) : List SnapshotMeta :=
  let to_delete := (cleanupToDelete snapshots max_auto_snapshots).map
    (fun item => item.version)
  snapshots.filter (fun item => item.version ∉ to_delete)

/-! ## The auto-snapshot background task (`version_manager.py`)

`_create_auto_snapshots` iterates every project, loading it, loading its
graph and writing an AUTO snapshot; any of those steps may raise, and the
method installs no handler.  `auto_snapshot_loop` sleeps and calls it in an
unguarded `while True`.  The effectful steps enter the embedding as
`Except`-valued oracles indexed by the cycle number. -/

/-- An exception escaping one step of a snapshot cycle. -/
structure TaskError where
  message : String
deriving DecidableEq, Repr

/-- The per-cycle effects `_create_auto_snapshots` performs, as oracles:
the project listing, the per-project lookup, the graph load and the
snapshot write. -/
structure SnapshotCycleEnv where
  list_projects : Except TaskError (List String)
  get_project : String → Except TaskError (Option String)
  load_graph : String → Except TaskError Unit
  create_snapshot : String → Except TaskError Unit

/-- The per-project body of `_create_auto_snapshots`: skip a vanished
project, otherwise load its graph and snapshot it; no step is guarded. -/
def createAutoSnapshotFor (env : SnapshotCycleEnv) (summary : String) :
    Except TaskError Unit := do
  let project ← env.get_project summary
  match project with
  | none => pure ()
  | some p => do
    let _ ← env.load_graph p
    env.create_snapshot p

/-- `VersionManager._create_auto_snapshots`: list the projects and snapshot
each in turn; the first exception anywhere propagates to the caller
because the method has no `try`/`except`. -/
def create_auto_snapshots (env : SnapshotCycleEnv) : Except TaskError Unit := do
  let projects ← env.list_projects
  projects.foldlM (fun _ summary => createAutoSnapshotFor env summary) ()

/-- `VersionManager.auto_snapshot_loop`, run for `fuel` iterations of its
`while True` body (sleep, then `_create_auto_snapshots`), with the oracle
environment indexed by cycle number starting at `start`.  Returns how many
cycles completed and the exception that escaped the loop, if any; the loop
body installs no handler, so the first failing cycle ends the task. -/
def auto_snapshot_loop (env : Nat → SnapshotCycleEnv) (start : Nat) :
    Nat → Nat × Option TaskError
  | 0 => (0, none)
  | fuel + 1 =>
    match create_auto_snapshots (env start) with
    | .ok _ =>
      let (completed, escaped) := auto_snapshot_loop env (start + 1) fuel
      (completed + 1, escaped)
    | .error e => (0, some e)

/-! ## Decidability of outcomes and concrete sample data -/

instance {ε α : Type} [DecidableEq ε] [DecidableEq α] : DecidableEq (Except ε α) := by
  intro a b
  cases a <;> cases b
  case ok.ok x y =>
    exact decidable_of_iff (x = y) (by simp)
  case error.error x y =>
    exact decidable_of_iff (x = y) (by simp)
  all_goals exact isFalse (by intro h; cases h)

/-- Sample entity justified only by node `n1`. -/
def entA : Entity :=
  ⟨"A", "Alice", .character, "", [], [], ["n1"]⟩

/-- Sample entity justified only by node `n2`. -/
def entB : Entity :=
  ⟨"B", "Bob", .character, "", [], [], ["n2"]⟩

/-- Sample relation between `entA` and `entB` justified by both nodes. -/
def relAB : Relation :=
  ⟨"R", "A", "B", .friend, "knows", "", [], ["n1", "n2"]⟩

/-- Sample well-formed graph: deleting node `n1` removes `entA` (its only
justification) yet keeps `relAB` (still justified by `n2`), leaving the
relation's `source_id` dangling. -/
def gAB : KnowledgeGraph :=
  ⟨"p", [entA, entB], [relAB], 0⟩

/-- A graph already violating the `source_refs` emptiness invariant. -/
def gEmptyRefs : KnowledgeGraph :=
  ⟨"p", [⟨"E", "Eve", .character, "", [], [], []⟩], [], 0⟩

/-- Two distinct entities sharing one name, for the merge alias corner. -/
def gSameName : KnowledgeGraph :=
  ⟨"p", [⟨"a", "x", .character, "", [], [], ["n1"]⟩,
          ⟨"b", "x", .character, "", [], [], ["n2"]⟩], [], 0⟩

/-- A retrieval context holding one direct entity whose charged text
`"ab de"` has length 5: floored cost 1, ceiling cost 2. -/
def ctxC6 : RetrievalContext :=
  ⟨[], [], [⟨"E1", "ab", .character, "de", [], [], ["n1"]⟩], [], 0⟩

/-- One expanded query returning a single vector hit of score 1/2 and no
keyword or BM25 hits. -/
def expHalf : ExpansionHits :=
  ⟨[("n", 1/2)], [], []⟩

/-- Sample story node for the queue scenarios. -/
def nodeN : StoryNode :=
  ⟨"N", "题", "文", 1, 1, "", []⟩

/-- A debounced-graph-mode configuration with a 5-second window. -/
def cfgDebounce5 : SyncConfig :=
  ⟨.immediate, .debounced, 5, 10, 60⟩

/-- An immediate-graph-mode configuration. -/
def cfgImmediate : SyncConfig :=
  ⟨.immediate, .immediate, 5, 10, 60⟩

/-- The reconciliation outcome the sample manager reports for one node (the
node id is carried in the warnings so results identify their node). -/
def sampleSyncResult (node : StoryNode) : SyncResult :=
  ⟨true, true, true, [], [], [], [], [node.id]⟩

/-- A sample reconciliation backend leaving the graph unchanged. -/
def sampleManager : SyncManagerModel :=
  fun _ old_node node graph =>
    let _ := old_node
    (sampleSyncResult node, graph)

/-- Sample graph-store read for the queue scenarios. -/
def sampleLoadGraph : String → KnowledgeGraph :=
  fun project_id => ⟨project_id, [], [], 0⟩

/-- An oracle environment whose project listing raises. -/
def failingCycleEnv : SnapshotCycleEnv :=
  { list_projects := .error ⟨"disk full"⟩
    get_project := fun _ => .ok none
    load_graph := fun _ => .ok ()
    create_snapshot := fun _ => .ok () }

/-- Sample snapshot listing: one milestone and two autos. -/
def snapsSample : List SnapshotMeta :=
  [⟨1, .milestone⟩, ⟨2, .auto⟩, ⟨3, .auto⟩]

/-- The token total realized by the four lists of an `add_item`
accumulator. -/
def realizedAcc (acc : TruncAcc) : Nat :=
  (acc.nodes.map (fun n => estimate_tokens (rankedItemText (.node n)))).sum +
  (acc.knowledge.map (fun k => estimate_tokens (rankedItemText (.knowledge k)))).sum +
  (acc.entities.map (fun e => estimate_tokens (rankedItemText (.entity e)))).sum +
  (acc.relations.map (fun r => estimate_tokens (rankedItemText (.relation r)))).sum

/-- One dict-update event of the `node_scores` accumulation: a signal, a
node id and the reported score. -/
abbrev SignalEvent : Type := SignalKind × String × ℚ

/-- Fold a list of update events over the score dict. -/
def applyEvents (acc : List (String × NodeSignal)) (evs : List SignalEvent) :
    List (String × NodeSignal) :=
  evs.foldl (fun a e => updSignal a e.1 e.2.1 e.2.2) acc

/-- The update events of `retrieve_context`, in processing order (per
expansion: all vector hits, then keyword hits, then BM25 hits). -/
def eventsOf (expansions : List ExpansionHits) : List SignalEvent :=
  expansions.flatMap (fun exp =>
    exp.vector.map (fun h => (SignalKind.vector, h)) ++
    exp.keyword.map (fun h => (SignalKind.keyword, h)) ++
    exp.bm25.map (fun h => (SignalKind.bm25, h)))

/-- The scores one node receives from one signal inside an event list. -/
def sigHits (evs : List SignalEvent) (sig : SignalKind) (id : String) : List ℚ :=
  evs.filterMap (fun e => if e.1 = sig ∧ e.2.1 = id then some e.2.2 else none)

/-- Modelled from the amended claim's words: combined score with the raw
per-node vector maximum, and the keyword/BM25 maxima divided by
`max(1, signal maximum)` when the signal fired at all (0 otherwise). -/
def amendedNodeScore (max_keyword max_bm25 : ℚ) (entry : NodeSignal) : ℚ :=
  0.6 * entry.vector +
  0.2 * (if max_keyword = 0 then 0 else entry.keyword / max 1 max_keyword) +
  0.2 * (if max_bm25 = 0 then 0 else entry.bm25 / max 1 max_bm25)

/-! ## Helper lemmas -/

theorem mem_insertAscBy {key : α → Nat} {x a : α} {l : List α} :
    a ∈ insertAscBy key x l ↔ a = x ∨ a ∈ l := by
  induction l with
  | nil => simp [insertAscBy]
  | cons y ys ih =>
    by_cases h : key x < key y
    · simp [insertAscBy, h, ih]
    · simp [insertAscBy, h, ih]
      tauto

theorem mem_sortStableAsc_aux {key : α → Nat} {a : α} :
    ∀ (l acc : List α), a ∈ l.foldl (fun acc x => insertAscBy key x acc) acc ↔
      a ∈ acc ∨ a ∈ l := by
  intro l
  induction l with
  | nil => simp
  | cons y ys ih =>
    intro acc
    simp [List.foldl_cons, ih, mem_insertAscBy]
    tauto

theorem mem_sortStableAsc {key : α → Nat} {a : α} {l : List α} :
    a ∈ sortStableAsc key l ↔ a ∈ l := by
  simp [sortStableAsc, mem_sortStableAsc_aux]

theorem snapshot_type_eq_auto_of_value {t : SnapshotType}
    (h : t.value = SnapshotType.auto.value) : t = .auto := by
  cases t <;> simp_all [SnapshotType.value]

theorem cleanupToDelete_mem {snapshots : List SnapshotMeta} {cap : Nat}
    {s : SnapshotMeta} (h : s ∈ cleanupToDelete snapshots cap) :
    s ∈ snapshots ∧ s.snapshot_type = .auto := by
  unfold cleanupToDelete at h
  by_cases hlen :
      (snapshots.filter
        (fun item => item.snapshot_type.value = SnapshotType.auto.value)).length ≤ cap
  · simp [hlen] at h
  · simp only [hlen, if_false] at h
    have hs := mem_sortStableAsc.mp (List.mem_of_mem_take h)
    have := List.mem_filter.mp hs
    refine ⟨this.1, snapshot_type_eq_auto_of_value ?_⟩
    simpa using this.2

/-! ## Claims -/

/-- C9: `delete_version` always fails on a milestone-kind snapshot (so the
snapshot is not removed), and the auto-pruning after `create_snapshot`
deletes only AUTO-kind snapshots, so a milestone snapshot survives
`_cleanup_auto_snapshots` regardless of the cap, its age or the listing's
size (versions being unique per project). -/
theorem C9_milestone_protected (snapshots : List SnapshotMeta) (version cap : Nat)
    (target : SnapshotMeta) :
    (snapshots.find? (fun item => item.version = version) = some target →
      target.snapshot_type = .milestone →
      delete_version snapshots version = .error .milestoneProtected) ∧
    (∀ s ∈ cleanupToDelete snapshots cap, s.snapshot_type = .auto) ∧
    ((snapshots.map (fun item => item.version)).Nodup →
      ∀ m ∈ snapshots, m.snapshot_type = .milestone →
        m ∈ cleanup_auto_snapshots snapshots cap) := by
  refine ⟨?_, ?_, ?_⟩
  · intro hfind htype
    simp [delete_version, hfind, htype, SnapshotType.value]
  · intro s hs
    exact (cleanupToDelete_mem hs).2
  · intro hnodup m hm htype
    unfold cleanup_auto_snapshots
    refine List.mem_filter.mpr ⟨hm, ?_⟩
    simp only [decide_eq_true_eq, List.mem_map, not_exists, not_and]
    intro s hs
    obtain ⟨hsmem, hsauto⟩ := cleanupToDelete_mem hs
    intro hver
    have := List.inj_on_of_nodup_map hnodup hsmem hm hver
    rw [this] at hsauto
    rw [hsauto] at htype
    cases htype

/-- C9 witness: in the sample listing the milestone at version 1 cannot be
deleted and survives pruning with a cap of 0. -/
theorem C9_milestone_protected_witness :
    delete_version snapsSample 1 = .error .milestoneProtected ∧
    SnapshotMeta.mk 1 .milestone ∈ cleanup_auto_snapshots snapsSample 0 := by
  refine ⟨(C9_milestone_protected snapsSample 1 0 ⟨1, .milestone⟩).1 (by decide) rfl, ?_⟩
  exact (C9_milestone_protected snapsSample 1 0 ⟨1, .milestone⟩).2.2 (by decide)
    ⟨1, .milestone⟩ (by decide) rfl

/-- C2: the claim says a failure inside one cycle of the auto-snapshot
background task is caught within that cycle and the loop continues; the
code has no handler, so the first exception raised by
`_create_auto_snapshots` escapes `auto_snapshot_loop` and ends the task:
with an environment whose project listing raises, a 3-cycle run completes
0 cycles and surfaces the exception. -/
theorem C2_auto_snapshot_failure_escapes :
    create_auto_snapshots failingCycleEnv = .error ⟨"disk full"⟩ ∧
    auto_snapshot_loop (fun _ => failingCycleEnv) 0 3 = (0, some ⟨"disk full"⟩) := by
  constructor
  · rfl
  · rfl

/-- C10: with the graph sync mode immediate or manual, `process_ready`
returns no results and leaves the queue state untouched, without raising
even when no manager is configured and updates are pending (the mode check
precedes the manager check). -/
theorem C10_process_ready_noop (manager : Option SyncManagerModel)
    (load_graph : String → KnowledgeGraph) (config : SyncConfig) (now : ℚ)
    (st : SyncQueueState) (project_id : Option String)
    (h : config.graph_sync_mode = .immediate ∨ config.graph_sync_mode = .manual) :
    process_ready manager load_graph config now st project_id = .ok ([], st) := by
  rcases h with h | h <;> simp [process_ready, h]

/-- C10 witness: immediate mode, no manager, one pending node. -/
theorem C10_process_ready_noop_witness :
    process_ready none sampleLoadGraph cfgImmediate 10
      (enqueue 0 emptyQueueState "p" nodeN none) (some "p") =
      .ok ([], enqueue 0 emptyQueueState "p" nodeN none) :=
  C10_process_ready_noop none sampleLoadGraph cfgImmediate 10
    (enqueue 0 emptyQueueState "p" nodeN none) (some "p") (Or.inl rfl)

/-- C5: every mutating Graph Editor operation that fails leaves the graph
exactly as it was before the call: the `except` handler restores the
snapshot's entities, relations and `last_updated`, and no raise point can
have touched `project_id`. -/
theorem C5_editor_rollback (now : ℚ) (g : KnowledgeGraph) (entity_id from_id into_id : String)
    (updates : List (String × UpdateValue)) :
    (∀ e, (update_entity now g entity_id updates).2 = .error e →
      (update_entity now g entity_id updates).1 = g) ∧
    (∀ e, (delete_entity now g entity_id).2 = .error e →
      (delete_entity now g entity_id).1 = g) ∧
    (∀ e, (merge_entities now g from_id into_id).2 = .error e →
      (merge_entities now g from_id into_id).1 = g) := by
  refine ⟨?_, ?_, ?_⟩
  · intro e herr
    unfold update_entity at herr ⊢
    cases hfind : find_entity g entity_id with
    | none => simp [hfind, editorRollback]
    | some ent =>
      cases hnorm : normalize_entity_updates updates with
      | error err => simp [hfind, hnorm, editorRollback]
      | ok normalized => simp [hfind, hnorm] at herr
  · intro e herr
    unfold delete_entity at herr ⊢
    cases hfind : find_entity g entity_id with
    | none => simp [hfind, editorRollback]
    | some ent => simp [hfind] at herr
  · intro e herr
    unfold merge_entities at herr ⊢
    by_cases heq : from_id = into_id
    · simp [heq, editorRollback]
    · cases hfrom : find_entity g from_id with
      | none => simp [heq, hfrom, editorRollback]
      | some source =>
        cases hinto : find_entity g into_id with
        | none => simp [heq, hfrom, hinto, editorRollback]
        | some target => simp [heq, hfrom, hinto] at herr

/-- C5 witness: a rejected update, a delete of a missing entity and a
self-merge each leave the sample graph untouched. -/
theorem C5_editor_rollback_witness :
    (update_entity 7 gAB "A" [("bogus", .vStr "x")]).1 = gAB ∧
    (delete_entity 7 gAB "missing").1 = gAB ∧
    (merge_entities 7 gAB "A" "A").1 = gAB := by
  refine ⟨?_, ?_, ?_⟩
  · exact (C5_editor_rollback 7 gAB "A" "A" "A" [("bogus", .vStr "x")]).1
      (.unsupportedField "bogus") (by decide)
  · exact (C5_editor_rollback 7 gAB "missing" "A" "A" []).2.1 .entityNotFound (by decide)
  · exact (C5_editor_rollback 7 gAB "A" "A" "A" []).2.2 .selfMerge (by decide)
theorem sync_delete_entities_spec (node_id : String) :
    ∀ es : List Entity, (∀ e ∈ es, e.source_refs ≠ []) →
    sync_delete_entities node_id es =
      ((es.filter (fun e => (e.source_refs.filter (fun r => r ≠ node_id)).isEmpty)).map
        (fun e => e.id),
       es.filterMap (fun e =>
         let refs := e.source_refs.filter (fun r => r ≠ node_id)
         if refs.isEmpty then none else some { e with source_refs := refs })) := by
  intro es
  induction es with
  | nil => intro _; rfl
  | cons e es ih =>
    intro h
    have hes : ∀ x ∈ es, x.source_refs ≠ [] := fun x hx => h x (List.mem_cons_of_mem e hx)
    have hrec := ih hes
    by_cases hm : node_id ∈ e.source_refs
    · by_cases hemp : (e.source_refs.filter (fun r => r ≠ node_id)).isEmpty = true
      · rw [sync_delete_entities, if_pos hm, hrec]
        simp only [List.filter_cons, List.filterMap_cons, List.map_cons, hemp,
          if_true, ite_true]
      · rw [sync_delete_entities, if_pos hm, hrec]
        simp only [List.filter_cons, List.filterMap_cons, List.map_cons, hemp,
          if_false, ite_false, Bool.false_eq_true]
    · have hfilt : e.source_refs.filter (fun r => r ≠ node_id) = e.source_refs := by
        apply List.filter_eq_self.mpr
        intro a ha
        simp only [decide_eq_true_eq]
        intro hcontra
        exact hm (hcontra ▸ ha)
      have hne : e.source_refs ≠ [] := h e (List.mem_cons_self e es)
      have hemp : (e.source_refs.filter (fun r => r ≠ node_id)).isEmpty = false := by
        rw [hfilt]
        simpa [List.isEmpty_iff] using hne
      have hne' : e.source_refs.isEmpty = false := by
        simpa [List.isEmpty_iff] using hne
      rw [sync_delete_entities, if_neg hm, hrec]
      simp only [List.filter_cons, List.filterMap_cons, List.map_cons, hemp,
        Bool.false_eq_true, if_false, ite_false, hfilt, hne']

theorem sync_delete_relations_spec (node_id : String) :
    ∀ rs : List Relation, (∀ r ∈ rs, r.source_refs ≠ []) →
    sync_delete_relations node_id rs =
      ((rs.filter (fun r => (r.source_refs.filter (fun x => x ≠ node_id)).isEmpty)).map
        (fun r => r.id),
       rs.filterMap (fun r =>
         let refs := r.source_refs.filter (fun x => x ≠ node_id)
         if refs.isEmpty then none else some { r with source_refs := refs })) := by
  intro rs
  induction rs with
  | nil => intro _; rfl
  | cons r rs ih =>
    intro h
    have hrs : ∀ x ∈ rs, x.source_refs ≠ [] := fun x hx => h x (List.mem_cons_of_mem r hx)
    have hrec := ih hrs
    by_cases hm : node_id ∈ r.source_refs
    · by_cases hemp : (r.source_refs.filter (fun x => x ≠ node_id)).isEmpty = true
      · rw [sync_delete_relations, if_pos hm, hrec]
        simp only [List.filter_cons, List.filterMap_cons, List.map_cons, hemp,
          if_true, ite_true]
      · rw [sync_delete_relations, if_pos hm, hrec]
        simp only [List.filter_cons, List.filterMap_cons, List.map_cons, hemp,
          if_false, ite_false, Bool.false_eq_true]
    · have hfilt : r.source_refs.filter (fun x => x ≠ node_id) = r.source_refs := by
        apply List.filter_eq_self.mpr
        intro a ha
        simp only [decide_eq_true_eq]
        intro hcontra
        exact hm (hcontra ▸ ha)
      have hne : r.source_refs ≠ [] := h r (List.mem_cons_self r rs)
      have hemp : (r.source_refs.filter (fun x => x ≠ node_id)).isEmpty = false := by
        rw [hfilt]
        simpa [List.isEmpty_iff] using hne
      have hne' : r.source_refs.isEmpty = false := by
        simpa [List.isEmpty_iff] using hne
      rw [sync_delete_relations, if_neg hm, hrec]
      simp only [List.filter_cons, List.filterMap_cons, List.map_cons, hemp,
        Bool.false_eq_true, if_false, ite_false, hfilt, hne']

/-- C4 counterexample: the claim quantifies over any graph, but an entity
whose `source_refs` list is already empty does not contain the deleted node
id, is skipped by the loop, and therefore survives `sync_node_delete` with
its empty list. -/
theorem C4_counterexample :
    ¬ noEmptySourceRefs (sync_node_delete "n" gEmptyRefs).2 := by
  decide

/-- C4 (amended): on a graph satisfying the emptiness invariant,
`sync_node_delete` strips the node id from every element's `source_refs`
and removes exactly the elements whose stripped list becomes empty, so no
remaining element has an empty list; the removed ids are reported in
order. -/
theorem C4_sync_node_delete_strips (node_id : String) (g : KnowledgeGraph)
    (h : noEmptySourceRefs g) :
    noEmptySourceRefs (sync_node_delete node_id g).2 ∧
    (sync_node_delete node_id g).2.entities =
      g.entities.filterMap (fun e =>
        let refs := e.source_refs.filter (fun r => r ≠ node_id)
        if refs.isEmpty then none else some { e with source_refs := refs }) ∧
    (sync_node_delete node_id g).2.relations =
      g.relations.filterMap (fun r =>
        let refs := r.source_refs.filter (fun x => x ≠ node_id)
        if refs.isEmpty then none else some { r with source_refs := refs }) ∧
    (sync_node_delete node_id g).1.removed_entities =
      (g.entities.filter
        (fun e => (e.source_refs.filter (fun r => r ≠ node_id)).isEmpty)).map
        (fun e => e.id) ∧
    (sync_node_delete node_id g).1.removed_relations =
      (g.relations.filter
        (fun r => (r.source_refs.filter (fun x => x ≠ node_id)).isEmpty)).map
        (fun r => r.id) := by
  have hent := sync_delete_entities_spec node_id g.entities h.1
  have hrel := sync_delete_relations_spec node_id g.relations h.2
  have hE : (sync_node_delete node_id g).2.entities =
      g.entities.filterMap (fun e =>
        let refs := e.source_refs.filter (fun r => r ≠ node_id)
        if refs.isEmpty then none else some { e with source_refs := refs }) := by
    simp [sync_node_delete, hent]
  have hR : (sync_node_delete node_id g).2.relations =
      g.relations.filterMap (fun r =>
        let refs := r.source_refs.filter (fun x => x ≠ node_id)
        if refs.isEmpty then none else some { r with source_refs := refs }) := by
    simp [sync_node_delete, hrel]
  refine ⟨⟨?_, ?_⟩, hE, hR, ?_, ?_⟩
  · intro e' he'
    rw [hE] at he'
    obtain ⟨e, _, hfe⟩ := List.mem_filterMap.mp he'
    simp only at hfe
    split at hfe
    · cases hfe
    · rename_i hemp
      rw [Option.some_inj] at hfe
      rw [← hfe]
      simpa [List.isEmpty_iff] using hemp
  · intro r' hr'
    rw [hR] at hr'
    obtain ⟨r, _, hfr⟩ := List.mem_filterMap.mp hr'
    simp only at hfr
    split at hfr
    · cases hfr
    · rename_i hemp
      rw [Option.some_inj] at hfr
      rw [← hfr]
      simpa [List.isEmpty_iff] using hemp
  · simp [sync_node_delete, hent]
  · simp [sync_node_delete, hrel]

/-- C4 witness: deleting node `n1` from the sample graph removes `entA`
(stripped empty), keeps `entB` untouched and keeps `relAB` with `n1`
stripped. -/
theorem C4_sync_node_delete_strips_witness :
    noEmptySourceRefs (sync_node_delete "n1" gAB).2 ∧
    (sync_node_delete "n1" gAB).1.removed_entities = ["A"] := by
  constructor
  · exact (C4_sync_node_delete_strips "n1" gAB (by decide)).1
  · rw [(C4_sync_node_delete_strips "n1" gAB (by decide)).2.2.2.1]
    decide

theorem applyEntityField_id (e : Entity) (key : String) (v : UpdateValue) :
    (applyEntityField e key v).id = e.id := by
  rw [applyEntityField.eq_def]
  split <;> rfl

theorem foldl_applyEntityField_id (normalized : List (String × UpdateValue)) :
    ∀ e : Entity,
      (normalized.foldl (fun acc kv => applyEntityField acc kv.1 kv.2) e).id = e.id := by
  induction normalized with
  | nil => intro e; rfl
  | cons kv rest ih =>
    intro e
    rw [List.foldl_cons, ih, applyEntityField_id]

theorem updateFirstEntity_map_id {es : List Entity} {i : String} {f : Entity → Entity}
    (hf : ∀ e : Entity, e.id = i → (f e).id = e.id) :
    (updateFirstEntity es i f).map (fun e => e.id) = es.map (fun e => e.id) := by
  induction es with
  | nil => rfl
  | cons e rest ih =>
    by_cases he : e.id = i
    · simp [updateFirstEntity, he, hf e he]
    · simp [updateFirstEntity, he, ih]

theorem find_entity_some {g : KnowledgeGraph} {i : String} {e : Entity}
    (h : find_entity g i = some e) : e.id = i ∧ e ∈ g.entities := by
  refine ⟨?_, List.mem_of_find?_eq_some h⟩
  have := List.find?_some h
  simpa using this

theorem mem_map_snd_replace {acc : List ((String × String × String × String) × Relation)}
    {k : String × String × String × String} {v r' : Relation}
    (h : r' ∈ (acc.map (fun p => if p.1 = k then (p.1, v) else p)).map
      (fun p => p.2)) :
    r' ∈ acc.map (fun p => p.2) ∨ r' = v := by
  rw [List.map_map] at h
  obtain ⟨p, hp, hval⟩ := List.mem_map.mp h
  by_cases hk : p.1 = k
  · right
    simpa [hk] using hval.symm
  · left
    simp only [Function.comp_apply, hk, if_false, ite_false] at hval
    exact List.mem_map.mpr ⟨p, hp, hval⟩

theorem dedupeRelationsFold_vals :
    ∀ (rs : List Relation) (acc : List ((String × String × String × String) × Relation))
      (r' : Relation),
      r' ∈ (dedupeRelationsFold acc rs).map (fun p => p.2) →
      r' ∈ acc.map (fun p => p.2) ∨ r' ∈ rs := by
  intro rs
  induction rs with
  | nil =>
    intro acc r' h
    exact Or.inl h
  | cons r rest ih =>
    intro acc r' h
    rw [dedupeRelationsFold] at h
    cases hfind : acc.find? (fun p => p.1 = relationKey r) with
    | none =>
      rw [hfind] at h
      rcases ih _ _ h with hmem | hmem
      · rw [List.map_append] at hmem
        rcases List.mem_append.mp hmem with hmem | hmem
        · exact Or.inl hmem
        · simp only [List.map_cons, List.map_nil, List.mem_singleton] at hmem
          exact Or.inr (hmem ▸ List.mem_cons_self r rest)
      · exact Or.inr (List.mem_cons_of_mem r hmem)
    | some existing =>
      rw [hfind] at h
      rcases ih _ _ h with hmem | hmem
      · rcases mem_map_snd_replace hmem with hmem | hval
        · exact Or.inl hmem
        · unfold pick_relation at hval
          by_cases hscore : relation_score existing.2 < relation_score r
          · rw [hval, if_pos hscore]
            exact Or.inr (List.mem_cons_self r rest)
          · rw [hval, if_neg hscore]
            exact Or.inl (List.mem_map.mpr ⟨existing, List.mem_of_find?_eq_some hfind, rfl⟩)
      · exact Or.inr (List.mem_cons_of_mem r hmem)

theorem mem_of_mem_dedupe_relations {rs : List Relation} {r' : Relation}
    (h : r' ∈ dedupe_relations rs) : r' ∈ rs := by
  rcases dedupeRelationsFold_vals rs [] r' h with hmem | hmem
  · cases hmem
  · exact hmem

theorem exists_id_of_map_id_eq {es es' : List Entity}
    (hmap : es'.map (fun e => e.id) = es.map (fun e => e.id)) {x : String}
    (h : ∃ e ∈ es, e.id = x) : ∃ e' ∈ es', e'.id = x := by
  obtain ⟨e, he, hx⟩ := h
  have : x ∈ es.map (fun e => e.id) := List.mem_map.mpr ⟨e, he, hx⟩
  rw [← hmap] at this
  obtain ⟨e', he', hx'⟩ := List.mem_map.mp this
  exact ⟨e', he', hx'⟩

theorem wellformed_update_entity (now : ℚ) (g : KnowledgeGraph) (entity_id : String)
    (updates : List (String × UpdateValue)) (h : graphWellFormed g) :
    graphWellFormed (update_entity now g entity_id updates).1 := by
  unfold update_entity
  cases hfind : find_entity g entity_id with
  | none => exact h
  | some entity =>
    cases hnorm : normalize_entity_updates updates with
    | error e => exact h
    | ok normalized =>
      have hid := (find_entity_some hfind).1
      have hmap :
          (updateFirstEntity g.entities entity_id
            (fun _ => normalized.foldl (fun acc kv => applyEntityField acc kv.1 kv.2)
              entity)).map (fun e => e.id) = g.entities.map (fun e => e.id) := by
        apply updateFirstEntity_map_id
        intro e he
        rw [foldl_applyEntityField_id, hid, he]
      constructor
      · simpa only [hmap] using h.1
      · intro r hr
        obtain ⟨hs, ht⟩ := h.2 r hr
        exact ⟨exists_id_of_map_id_eq hmap hs, exists_id_of_map_id_eq hmap ht⟩

theorem wellformed_delete_entity (now : ℚ) (g : KnowledgeGraph) (entity_id : String)
    (h : graphWellFormed g) :
    graphWellFormed (delete_entity now g entity_id).1 := by
  unfold delete_entity
  cases hfind : find_entity g entity_id with
  | none => exact h
  | some entity =>
    constructor
    · exact List.Nodup.sublist (List.Sublist.map _ (List.filter_sublist _)) h.1
    · intro r hr
      have hm := List.mem_filter.mp hr
      have hprops : r.source_id ≠ entity_id ∧ r.target_id ≠ entity_id := by
        simpa using hm.2
      obtain ⟨hs, ht⟩ := h.2 r hm.1
      constructor
      · obtain ⟨e, he, hx⟩ := hs
        refine ⟨e, List.mem_filter.mpr ⟨he, ?_⟩, hx⟩
        simp [hx, hprops.1]
      · obtain ⟨e, he, hx⟩ := ht
        refine ⟨e, List.mem_filter.mpr ⟨he, ?_⟩, hx⟩
        simp [hx, hprops.2]

theorem redirectRelation_endpoints (from_id into_id : String) (r : Relation) :
    (redirectRelation from_id into_id r).source_id =
      (if r.source_id = from_id then into_id else r.source_id) ∧
    (redirectRelation from_id into_id r).target_id =
      (if r.target_id = from_id then into_id else r.target_id) := by
  by_cases h1 : r.source_id = from_id <;> by_cases h2 : r.target_id = from_id <;>
    simp [redirectRelation, h1, h2]

theorem wellformed_merge_entities (now : ℚ) (g : KnowledgeGraph)
    (from_id into_id : String) (h : graphWellFormed g) :
    graphWellFormed (merge_entities now g from_id into_id).1 := by
  unfold merge_entities
  by_cases heq : from_id = into_id
  · rw [if_pos heq]
    exact h
  · rw [if_neg heq]
    cases hfrom : find_entity g from_id with
    | none =>
      cases hinto : find_entity g into_id <;> exact h
    | some source =>
      cases hinto : find_entity g into_id with
      | none => exact h
      | some target =>
        obtain ⟨hsid, hsmem⟩ := find_entity_some hfrom
        obtain ⟨htid, htmem⟩ := find_entity_some hinto
        have hmap :
            (updateFirstEntity g.entities into_id
              (fun _ =>
                { target with
                    aliases := mergedAliases source target
                    source_refs := (target.source_refs ++ source.source_refs).dedup })).map
              (fun e => e.id) = g.entities.map (fun e => e.id) := by
          apply updateFirstEntity_map_id
          intro e he
          rw [he]
          exact htid
        have hfinal :
            ∀ x : String, x ≠ source.id → (∃ e ∈ g.entities, e.id = x) →
              ∃ e' ∈ (updateFirstEntity g.entities into_id
                (fun _ =>
                  { target with
                      aliases := mergedAliases source target
                      source_refs := (target.source_refs ++ source.source_refs).dedup })).filter
                (fun e => e.id ≠ source.id), e'.id = x := by
          intro x hxne hx
          obtain ⟨e', he', hx'⟩ := exists_id_of_map_id_eq hmap hx
          refine ⟨e', List.mem_filter.mpr ⟨he', ?_⟩, hx'⟩
          simp [hx', hxne]
        have hne2 : target.id ≠ source.id := by
          rw [htid, hsid]
          exact fun hc => heq hc.symm
        constructor
        · exact List.Nodup.sublist (List.Sublist.map _ (List.filter_sublist _))
            (by simpa only [hmap] using h.1)
        · intro r' hr'
          have hr'mem := mem_of_mem_dedupe_relations hr'
          obtain ⟨r, hrmem, hredir⟩ := List.mem_map.mp hr'mem
          obtain ⟨hs, ht⟩ := h.2 r hrmem
          obtain ⟨hsrc, htgt⟩ := redirectRelation_endpoints source.id target.id r
          rw [hredir] at hsrc htgt
          constructor
          · rw [hsrc]
            by_cases hcase : r.source_id = source.id
            · rw [if_pos hcase]
              exact hfinal target.id hne2 ⟨target, htmem, rfl⟩
            · rw [if_neg hcase]
              exact hfinal r.source_id hcase hs
          · rw [htgt]
            by_cases hcase : r.target_id = source.id
            · rw [if_pos hcase]
              exact hfinal target.id hne2 ⟨target, htmem, rfl⟩
            · rw [if_neg hcase]
              exact hfinal r.target_id hcase ht

/-- C1 counterexample: the sample graph is well-formed, yet after
`sync_node_delete` removes `entA` (whose only justification was the deleted
node) the surviving relation `relAB` still names `A` as its `source_id`,
which no longer resolves to any entity. -/
theorem C1_counterexample :
    graphWellFormed gAB ∧ ¬ graphWellFormed (sync_node_delete "n1" gAB).2 := by
  decide

/-- C1 (amended): entity-id uniqueness and relation-endpoint resolution are
preserved by every Graph Editor operation — `update_entity` cannot touch
ids, `delete_entity` cascade-removes incident relations, `merge_entities`
redirects endpoints onto the surviving entity, and every failure path rolls
back — but not by `sync_node_delete`, which can drop an entity while a
relation referencing it survives on other source refs. -/
theorem C1_wellformed_editor (now : ℚ) (g : KnowledgeGraph)
    (entity_id from_id into_id : String) (updates : List (String × UpdateValue))
    (h : graphWellFormed g) :
    graphWellFormed (update_entity now g entity_id updates).1 ∧
    graphWellFormed (delete_entity now g entity_id).1 ∧
    graphWellFormed (merge_entities now g from_id into_id).1 :=
  ⟨wellformed_update_entity now g entity_id updates h,
   wellformed_delete_entity now g entity_id h,
   wellformed_merge_entities now g from_id into_id h⟩

/-- C1 witness: the three editor operations applied to the sample graph. -/
theorem C1_wellformed_editor_witness :
    graphWellFormed (update_entity 7 gAB "A" [("name", .vStr "Al")]).1 ∧
    graphWellFormed (delete_entity 7 gAB "A").1 ∧
    graphWellFormed (merge_entities 7 gAB "A" "B").1 :=
  C1_wellformed_editor 7 gAB "A" "A" "B" [("name", .vStr "Al")] (by decide)

/-- C7 counterexample: merging entity `a` (named "x") into entity `b`
(also named "x") discards the shared name from the merged alias set, so
the claim that B's aliases always include A's name fails. -/
theorem C7_counterexample :
    (merge_entities 0 gSameName "a" "b").2 =
      .ok ⟨"b", "x", .character, "", [], [], ["n2", "n1"]⟩ ∧
    "x" ∉ (Entity.mk "b" "x" .character "" [] [] ["n2", "n1"]).aliases := by
  decide

/-- C7 (amended): `merge_entities` fails Validation on a self-merge and
NotFound when either entity is absent; on success no relation endpoint and
no entity id equals the merged-away id, the result's `source_refs` realize
the union of both entities' refs, and its alias set realizes
`target.aliases ∪ {source.name} ∪ source.aliases` minus `target.name` —
so A's name too is dropped when it equals B's own name. -/
theorem C7_merge_semantics (now : ℚ) (g : KnowledgeGraph) (from_id into_id : String) :
    (from_id = into_id → (merge_entities now g from_id into_id).2 = .error .selfMerge) ∧
    (from_id ≠ into_id →
      (find_entity g from_id = none ∨ find_entity g into_id = none) →
      (merge_entities now g from_id into_id).2 = .error .entityNotFound) ∧
    (∀ source target : Entity, from_id ≠ into_id →
      find_entity g from_id = some source → find_entity g into_id = some target →
      ∃ merged : Entity,
        (merge_entities now g from_id into_id).2 = .ok merged ∧
        (∀ r ∈ (merge_entities now g from_id into_id).1.relations,
          r.source_id ≠ from_id ∧ r.target_id ≠ from_id) ∧
        (∀ e ∈ (merge_entities now g from_id into_id).1.entities, e.id ≠ from_id) ∧
        (∀ x : String, x ∈ merged.source_refs ↔
          x ∈ target.source_refs ∨ x ∈ source.source_refs) ∧
        (∀ x : String, x ∈ merged.aliases ↔
          (x ∈ target.aliases ∨ x = source.name ∨ x ∈ source.aliases) ∧
            x ≠ target.name)) := by
  refine ⟨?_, ?_, ?_⟩
  · intro h
    simp [merge_entities, h, editorRollback]
  · intro hne hmissing
    rcases hmissing with hfrom | hinto
    · cases hinto : find_entity g into_id <;>
        simp [merge_entities, hne, hfrom, hinto, editorRollback]
    · cases hfrom : find_entity g from_id <;>
        simp [merge_entities, hne, hfrom, hinto, editorRollback]
  · intro source target hne hfrom hinto
    obtain ⟨hsid, _⟩ := find_entity_some hfrom
    obtain ⟨htid, _⟩ := find_entity_some hinto
    refine ⟨{ target with
        aliases := mergedAliases source target
        source_refs := (target.source_refs ++ source.source_refs).dedup },
      ?_, ?_, ?_, ?_, ?_⟩
    · unfold merge_entities
      rw [if_neg hne, hfrom, hinto]
    · intro r hr
      unfold merge_entities at hr
      rw [if_neg hne, hfrom, hinto] at hr
      have hrmem := mem_of_mem_dedupe_relations hr
      obtain ⟨r0, _, hredir⟩ := List.mem_map.mp hrmem
      obtain ⟨hsrc, htgt⟩ := redirectRelation_endpoints source.id target.id r0
      rw [hredir] at hsrc htgt
      have hinto_ne : target.id ≠ from_id := by
        rw [htid]
        exact fun hc => hne hc.symm
      constructor
      · rw [hsrc]
        by_cases hcase : r0.source_id = source.id
        · rw [if_pos hcase]
          exact hinto_ne
        · rw [if_neg hcase]
          rw [hsid] at hcase
          exact hcase
      · rw [htgt]
        by_cases hcase : r0.target_id = source.id
        · rw [if_pos hcase]
          exact hinto_ne
        · rw [if_neg hcase]
          rw [hsid] at hcase
          exact hcase
    · intro e he
      unfold merge_entities at he
      rw [if_neg hne, hfrom, hinto] at he
      have := List.mem_filter.mp he
      rw [← hsid]
      simpa using this.2
    · intro x
      simp [List.mem_dedup]
    · intro x
      simp [mergedAliases, List.mem_filter, List.mem_dedup, List.mem_append]

/-- C7 witness: merging `entA` into `entB` in the sample graph. -/
theorem C7_merge_semantics_witness :
    ∃ merged : Entity,
      (merge_entities 7 gAB "A" "B").2 = .ok merged ∧
      (∀ r ∈ (merge_entities 7 gAB "A" "B").1.relations,
        r.source_id ≠ "A" ∧ r.target_id ≠ "A") ∧
      (∀ e ∈ (merge_entities 7 gAB "A" "B").1.entities, e.id ≠ "A") ∧
      (∀ x : String, x ∈ merged.source_refs ↔
        x ∈ entB.source_refs ∨ x ∈ entA.source_refs) ∧
      (∀ x : String, x ∈ merged.aliases ↔
        (x ∈ entB.aliases ∨ x = entA.name ∨ x ∈ entA.aliases) ∧ x ≠ entB.name) :=
  (C7_merge_semantics 7 gAB "A" "B").2.2 entA entB (by decide) (by decide) (by decide)

theorem addItem_inv (max_tokens : Nat) (acc : TruncAcc) (item : RankedItem)
    (h1 : acc.tokens = realizedAcc acc) (h2 : acc.tokens ≤ max_tokens) :
    (addItem max_tokens acc item).tokens = realizedAcc (addItem max_tokens acc item) ∧
    (addItem max_tokens acc item).tokens ≤ max_tokens := by
  unfold addItem
  by_cases hfit :
      acc.tokens + estimate_tokens (rankedItemText item.value) ≤ max_tokens
  · rw [if_pos hfit]
    cases hval : item.value <;>
      simp_all [realizedAcc, List.map_append, List.sum_append] <;> omega
  · rw [if_neg hfit]
    exact ⟨h1, h2⟩

theorem addItems_inv (max_tokens : Nat) :
    ∀ (items : List RankedItem) (acc : TruncAcc),
      acc.tokens = realizedAcc acc → acc.tokens ≤ max_tokens →
      (addItems max_tokens acc items).tokens =
        realizedAcc (addItems max_tokens acc items) ∧
      (addItems max_tokens acc items).tokens ≤ max_tokens := by
  intro items
  induction items with
  | nil => intro acc h1 h2; exact ⟨h1, h2⟩
  | cons item rest ih =>
    intro acc h1 h2
    rw [addItems]
    obtain ⟨h1', h2'⟩ := addItem_inv max_tokens acc item h1 h2
    by_cases hstop : max_tokens ≤ (addItem max_tokens acc item).tokens
    · rw [if_pos hstop]
      exact ⟨h1', h2'⟩
    · rw [if_neg hstop]
      exact ih _ h1' h2'

/-- C6 counterexample: with one direct entity whose charged text `"ab de"`
has length 5, the code charges `max(1, 5 // 4) = 1` token while the
claim's `max(1, ceil(5/4)) = 2`, so the reported count is not the sum of
the claimed per-item costs. -/
theorem C6_counterexample :
    (truncate_context ctxC6 100 [] [] []).token_count ≠
      claimedCeilTokens (truncate_context ctxC6 100 [] [] []) := by
  decide

/-- C6 (amended): for every context and budget, `_truncate_context` reports
exactly the sum of the realized `_estimate_tokens` costs (0 for empty text,
otherwise `max(1, floor(len/4))`) of the items it returns, and that sum
never exceeds `max_tokens`. -/
theorem C6_truncate_budget (context : RetrievalContext) (max_tokens : Nat)
    (direct_entity_ids : List String) (relation_layers : List Relation)
    (entity_layers : List Entity) :
    (truncate_context context max_tokens direct_entity_ids relation_layers
        entity_layers).token_count =
      realizedTokens (truncate_context context max_tokens direct_entity_ids
        relation_layers entity_layers) ∧
    (truncate_context context max_tokens direct_entity_ids relation_layers
        entity_layers).token_count ≤ max_tokens := by
  have h := addItems_inv max_tokens
    (rankedItems context direct_entity_ids relation_layers entity_layers)
    (TruncAcc.mk [] [] [] [] 0) (by simp [realizedAcc]) (Nat.zero_le _)
  exact h

/-- C8: in debounced graph mode a node is selected by `process_ready`
exactly when `now - last_update >= debounce_seconds`; concretely, with a
5-second window a node enqueued at time 0 yields no result at time 2 and
exactly one result (its own reconciliation outcome) at time 6, after which
the queue is empty. -/
theorem C8_debounce_ready (config : SyncConfig) (now : ℚ)
    (pending : List (String × StoryNode)) (last_updates : List (String × ℚ))
    (node_id : String) (h : config.graph_sync_mode = .debounced) :
    (node_id ∈ readyNodeIds config now pending last_updates ↔
      ∃ t : ℚ, (node_id, t) ∈ last_updates ∧
        (config.debounce_seconds : ℚ) ≤ now - t) ∧
    process_ready (some sampleManager) sampleLoadGraph cfgDebounce5 2
      (enqueue 0 emptyQueueState "p" nodeN none) (some "p") =
      .ok ([], enqueue 0 emptyQueueState "p" nodeN none) ∧
    process_ready (some sampleManager) sampleLoadGraph cfgDebounce5 6
      (enqueue 0 emptyQueueState "p" nodeN none) (some "p") =
      .ok ([sampleSyncResult nodeN], emptyQueueState) := by
  refine ⟨?_, ?_, ?_⟩
  · unfold readyNodeIds
    rw [if_neg (by simp [h])]
    simp only [List.mem_map, List.mem_filter, decide_eq_true_eq]
    constructor
    · rintro ⟨⟨a, t⟩, ⟨hmem, hcond⟩, heq⟩
      simp only at heq
      subst heq
      exact ⟨t, hmem, hcond⟩
    · rintro ⟨t, hmem, hcond⟩
      exact ⟨(node_id, t), ⟨hmem, hcond⟩, rfl⟩
  · norm_num [process_ready, processProject, processNodes, readyNodeIds, enqueue,
      emptyQueueState, dictSet, dictGetD, dictGet?, dictPop, dictWriteBack,
      cfgDebounce5, sampleManager, sampleLoadGraph, sampleSyncResult, nodeN]
  · norm_num [process_ready, processProject, processNodes, readyNodeIds, enqueue,
      emptyQueueState, dictSet, dictGetD, dictGet?, dictPop, dictWriteBack,
      cfgDebounce5, sampleManager, sampleLoadGraph, sampleSyncResult, nodeN]
    decide

/-- C8 witness: with a 5-second window, the node stamped at time 0 is ready
at time 6 and not ready at time 2. -/
theorem C8_debounce_ready_witness :
    ("N" ∈ readyNodeIds cfgDebounce5 6 [("N", nodeN)] [("N", 0)]) ∧
    ¬ ("N" ∈ readyNodeIds cfgDebounce5 2 [("N", nodeN)] [("N", 0)]) := by
  constructor
  · exact (C8_debounce_ready cfgDebounce5 6 [("N", nodeN)] [("N", 0)] "N" rfl).1.mpr
      ⟨0, by norm_num [cfgDebounce5]⟩
  · intro hmem
    obtain ⟨t, hmem', hcond⟩ :=
      (C8_debounce_ready cfgDebounce5 2 [("N", nodeN)] [("N", 0)] "N" rfl).1.mp hmem
    simp only [List.mem_singleton, Prod.mk.injEq] at hmem'
    rw [hmem'.2] at hcond
    norm_num [cfgDebounce5] at hcond

theorem dictGet?_cons (p : String × α) (m : List (String × α)) (k : String) :
    dictGet? (p :: m) k = if p.1 = k then some p.2 else dictGet? m k := by
  unfold dictGet?
  by_cases h : p.1 = k
  · rw [List.find?_cons_of_pos _ (by simpa using h), if_pos h]
  · rw [List.find?_cons_of_neg _ (by simpa using h), if_neg h]

theorem dictGet?_map_maxAt_ne (sig : SignalKind) (q : ℚ) {nid q_id : String}
    (h : q_id ≠ nid) :
    ∀ acc : List (String × NodeSignal),
      dictGet? (acc.map (fun p => if p.1 = nid then (p.1, p.2.maxAt sig q) else p))
        q_id = dictGet? acc q_id := by
  intro acc
  induction acc with
  | nil => rfl
  | cons p rest ih =>
    rw [List.map_cons, dictGet?_cons, dictGet?_cons]
    by_cases hp : p.1 = nid
    · have hne : ¬ p.1 = q_id := by
        rw [hp]
        exact fun hc => h hc.symm
      rw [if_pos hp]
      simp only [hne, if_neg hne, ite_false, ih]
    · rw [if_neg hp]
      by_cases hq : p.1 = q_id
      · rw [if_pos hq, if_pos hq]
      · rw [if_neg hq, if_neg hq, ih]

theorem dictGet?_map_maxAt_eq (sig : SignalKind) (q : ℚ) (nid : String) :
    ∀ acc : List (String × NodeSignal),
      dictGet? (acc.map (fun p => if p.1 = nid then (p.1, p.2.maxAt sig q) else p))
        nid = Option.map (fun s => s.maxAt sig q) (dictGet? acc nid) := by
  intro acc
  induction acc with
  | nil => rfl
  | cons p rest ih =>
    rw [List.map_cons, dictGet?_cons, dictGet?_cons]
    by_cases hp : p.1 = nid
    · rw [if_pos hp]
      simp [hp]
    · rw [if_neg hp]
      simp only [hp, if_neg hp, ite_false, ih]

theorem dictGet?_append_single_ne {nid q_id : String} (h : q_id ≠ nid) (v : α) :
    ∀ acc : List (String × α),
      dictGet? (acc ++ [(nid, v)]) q_id = dictGet? acc q_id := by
  intro acc
  induction acc with
  | nil =>
    rw [List.nil_append, dictGet?_cons]
    rw [if_neg (fun hc => h hc.symm)]
  | cons p rest ih =>
    rw [List.cons_append, dictGet?_cons, dictGet?_cons, ih]

theorem dictGet?_append_single_eq (nid : String) (v : α) :
    ∀ acc : List (String × α), dictGet? acc nid = none →
      dictGet? (acc ++ [(nid, v)]) nid = some v := by
  intro acc
  induction acc with
  | nil =>
    intro _
    rw [List.nil_append, dictGet?_cons]
    simp
  | cons p rest ih =>
    intro hnone
    rw [dictGet?_cons] at hnone
    by_cases hp : p.1 = nid
    · rw [if_pos hp] at hnone
      cases hnone
    · rw [if_neg hp] at hnone
      rw [List.cons_append, dictGet?_cons, if_neg hp]
      exact ih hnone

theorem any_key_iff_dictGet? (acc : List (String × α)) (nid : String) :
    acc.any (fun p => p.1 = nid) = true ↔ (dictGet? acc nid).isSome = true := by
  rw [List.any_eq_true]
  unfold dictGet?
  constructor
  · rintro ⟨p, hp, hkey⟩
    have hs : (acc.find? (fun p => p.1 = nid)).isSome = true :=
      List.find?_isSome.mpr ⟨p, hp, hkey⟩
    obtain ⟨w, hw⟩ := Option.isSome_iff_exists.mp hs
    rw [hw]
    rfl
  · intro hsome
    cases hfind : acc.find? (fun p => p.1 = nid) with
    | none =>
      rw [hfind] at hsome
      cases hsome
    | some w =>
      have hkey := List.find?_some hfind
      exact ⟨w, List.mem_of_find?_eq_some hfind, hkey⟩

theorem updSignal_get_ne (acc : List (String × NodeSignal)) (sig : SignalKind)
    (nid q_id : String) (q : ℚ) (h : q_id ≠ nid) :
    dictGet? (updSignal acc sig nid q) q_id = dictGet? acc q_id := by
  unfold updSignal
  by_cases hany : acc.any (fun p => p.1 = nid)
  · rw [if_pos hany]
    exact dictGet?_map_maxAt_ne sig q h acc
  · rw [if_neg hany]
    exact dictGet?_append_single_ne h _ acc

theorem updSignal_get_eq (acc : List (String × NodeSignal)) (sig : SignalKind)
    (nid : String) (q : ℚ) :
    dictGet? (updSignal acc sig nid q) nid =
      some (((dictGet? acc nid).getD (NodeSignal.mk 0 0 0)).maxAt sig q) := by
  unfold updSignal
  by_cases hany : acc.any (fun p => p.1 = nid)
  · rw [if_pos hany, dictGet?_map_maxAt_eq]
    have hsome := (any_key_iff_dictGet? acc nid).mp (by simpa using hany)
    cases hfind : dictGet? acc nid with
    | none =>
      rw [hfind] at hsome
      cases hsome
    | some s => rfl
  · rw [if_neg hany]
    have hnone : dictGet? acc nid = none := by
      cases hfind : dictGet? acc nid with
      | none => rfl
      | some s =>
        exfalso
        apply hany
        have : (dictGet? acc nid).isSome = true := by
          rw [hfind]
          rfl
        simpa using (any_key_iff_dictGet? acc nid).mpr this
    rw [dictGet?_append_single_eq nid _ acc hnone, hnone]
    rfl

theorem applyHits_eq_applyEvents (sig : SignalKind)
    (acc : List (String × NodeSignal)) (hits : List (String × ℚ)) :
    applyHits sig acc hits = applyEvents acc (hits.map (fun h => (sig, h))) := by
  unfold applyHits applyEvents
  rw [List.foldl_map]

theorem applyEvents_append (acc : List (String × NodeSignal))
    (a b : List SignalEvent) :
    applyEvents acc (a ++ b) = applyEvents (applyEvents acc a) b := by
  unfold applyEvents
  rw [List.foldl_append]

theorem collect_eq_applyEvents (expansions : List ExpansionHits) :
    collectNodeScores expansions = applyEvents [] (eventsOf expansions) := by
  suffices h : ∀ acc : List (String × NodeSignal),
      expansions.foldl
        (fun acc exp =>
          applyHits .bm25
            (applyHits .keyword (applyHits .vector acc exp.vector) exp.keyword)
            exp.bm25)
        acc = applyEvents acc (eventsOf expansions) by
    exact h []
  induction expansions with
  | nil => intro acc; rfl
  | cons x xs ih =>
    intro acc
    rw [List.foldl_cons]
    rw [ih]
    unfold eventsOf
    rw [List.flatMap_cons, applyEvents_append, applyEvents_append, applyEvents_append]
    rw [← applyHits_eq_applyEvents, ← applyHits_eq_applyEvents,
      ← applyHits_eq_applyEvents]

theorem sigHits_append (a b : List SignalEvent) (sig : SignalKind) (id : String) :
    sigHits (a ++ b) sig id = sigHits a sig id ++ sigHits b sig id := by
  unfold sigHits
  rw [List.filterMap_append]

theorem sigHits_taggedMap (sig' sig : SignalKind) (id : String)
    (hits : List (String × ℚ)) :
    sigHits (hits.map (fun h => (sig', h))) sig id =
      if sig' = sig then
        hits.filterMap (fun h => if h.1 = id then some h.2 else none)
      else [] := by
  induction hits with
  | nil =>
    by_cases e1 : sig' = sig <;> simp [sigHits, e1]
  | cons h hs ih =>
    by_cases e1 : sig' = sig <;> by_cases e2 : h.1 = id <;>
      simp [sigHits, List.filterMap_cons, e1, e2] <;> simpa [sigHits, e1, e2] using ih

theorem hitsFor_eq_sigHits (expansions : List ExpansionHits) (sig : SignalKind)
    (id : String) :
    hitsFor expansions sig id = sigHits (eventsOf expansions) sig id := by
  induction expansions with
  | nil => cases sig <;> rfl
  | cons x xs ih =>
    unfold hitsFor at ih ⊢
    unfold eventsOf at ih ⊢
    rw [List.flatMap_cons, List.flatMap_cons, List.filterMap_append,
      sigHits_append, sigHits_append, sigHits_append, ih]
    cases sig <;>
      simp [sigHits_taggedMap]

theorem applyEvents_get :
    ∀ (evs : List SignalEvent) (acc : List (String × NodeSignal)) (id : String),
      dictGet? (applyEvents acc evs) id =
        match dictGet? acc id with
        | some s =>
          some (NodeSignal.mk
            ((sigHits evs .vector id).foldl max s.vector)
            ((sigHits evs .keyword id).foldl max s.keyword)
            ((sigHits evs .bm25 id).foldl max s.bm25))
        | none =>
          if sigHits evs .vector id = [] ∧ sigHits evs .keyword id = [] ∧
              sigHits evs .bm25 id = [] then none
          else
            some (NodeSignal.mk
              ((sigHits evs .vector id).foldl max 0)
              ((sigHits evs .keyword id).foldl max 0)
              ((sigHits evs .bm25 id).foldl max 0)) := by
  intro evs
  induction evs with
  | nil =>
    intro acc id
    cases hacc : dictGet? acc id with
    | none => simp [applyEvents, sigHits, hacc]
    | some s => simp [applyEvents, sigHits, hacc]
  | cons ev rest ih =>
    obtain ⟨sig0, nid, q⟩ := ev
    intro acc id
    have hstep : applyEvents acc ((sig0, nid, q) :: rest) =
        applyEvents (updSignal acc sig0 nid q) rest := by
      unfold applyEvents
      rw [List.foldl_cons]
    rw [hstep, ih]
    by_cases hid : id = nid
    · subst hid
      rw [updSignal_get_eq]
      cases hacc : dictGet? acc id with
      | some s =>
        cases sig0 <;>
          simp [sigHits, List.filterMap_cons, NodeSignal.maxAt]
      | none =>
        cases sig0 <;>
          simp [sigHits, List.filterMap_cons, NodeSignal.maxAt]
    · rw [updSignal_get_ne acc sig0 nid id q hid]
      have hnid : ¬ nid = id := fun hc => hid hc.symm
      cases hacc : dictGet? acc id with
      | some s => simp [sigHits, List.filterMap_cons, hnid]
      | none =>
        simp only [sigHits, List.filterMap_cons, hnid, and_false, ite_false]

theorem combined_eq_amended (max_keyword max_bm25 : ℚ) (entry : NodeSignal) :
    combinedNodeScore max_keyword max_bm25 entry =
      amendedNodeScore max_keyword max_bm25 entry := by
  unfold combinedNodeScore amendedNodeScore
  by_cases h1 : max_keyword = 0 <;> by_cases h2 : max_bm25 = 0 <;>
    simp [h1, h2] <;> ring

/-- C3 counterexample: one expansion with a single vector hit of score 1/2
and no keyword or BM25 hits.  The claim's formula normalizes the vector
signal to 1/2 / 1/2 = 1, predicting a combined score of 0.6, but the code
uses the raw vector score and computes 0.5 · 0.6 = 0.3. -/
theorem C3_counterexample :
    collectNodeScores [expHalf] = [("n", NodeSignal.mk (1/2) 0 0)] ∧
    nodeCombinedScores [expHalf] = [("n", 3/10)] ∧
    claimedNodeScore (maxSignal (collectNodeScores [expHalf]) .vector)
      (maxSignal (collectNodeScores [expHalf]) .keyword)
      (maxSignal (collectNodeScores [expHalf]) .bm25)
      (NodeSignal.mk (1/2) 0 0) = 3/5 ∧
    (3/10 : ℚ) ≠ 3/5 := by
  refine ⟨?_, ?_, ?_, by norm_num⟩
  · simp [collectNodeScores, applyHits, updSignal, expHalf, NodeSignal.maxAt]
  · simp [nodeCombinedScores, collectNodeScores, applyHits, updSignal, maxSignal,
      combinedNodeScore, expHalf, NodeSignal.maxAt, NodeSignal.get]
    norm_num
  · simp [claimedNodeScore, collectNodeScores, applyHits, updSignal, maxSignal,
      expHalf, NodeSignal.maxAt, NodeSignal.get]
    norm_num

/-- C3 (amended): in the node fusion of `retrieve_context`, every
candidate's per-signal value is the maximum score that signal reported for
the node across all expansions (a node appears in the dict exactly when
some signal hit it), and the combined score is 0.6 times the RAW vector
maximum plus 0.2 times the keyword maximum divided by `max(1, keyword
maximum over candidates)` plus 0.2 times the BM25 maximum divided by
`max(1, BM25 maximum over candidates)` (0 for a signal that never fired). -/
theorem C3_node_fusion (expansions : List ExpansionHits) (id : String) :
    (∀ s : NodeSignal, dictGet? (collectNodeScores expansions) id = some s →
      s.vector = listMax0 (hitsFor expansions .vector id) ∧
      s.keyword = listMax0 (hitsFor expansions .keyword id) ∧
      s.bm25 = listMax0 (hitsFor expansions .bm25 id)) ∧
    (dictGet? (collectNodeScores expansions) id = none ↔
      hitsFor expansions .vector id = [] ∧ hitsFor expansions .keyword id = [] ∧
        hitsFor expansions .bm25 id = []) ∧
    nodeCombinedScores expansions = (collectNodeScores expansions).map
      (fun p => (p.1, amendedNodeScore
        (maxSignal (collectNodeScores expansions) .keyword)
        (maxSignal (collectNodeScores expansions) .bm25) p.2)) := by
  have hget := applyEvents_get (eventsOf expansions) [] id
  rw [← collect_eq_applyEvents] at hget
  have hnil : dictGet? ([] : List (String × NodeSignal)) id = none := rfl
  rw [hnil] at hget
  rw [← hitsFor_eq_sigHits, ← hitsFor_eq_sigHits, ← hitsFor_eq_sigHits] at hget
  dsimp only at hget
  refine ⟨?_, ?_, ?_⟩
  · intro s hs
    rw [hget] at hs
    split at hs
    · cases hs
    · rw [Option.some_inj] at hs
      rw [← hs]
      exact ⟨rfl, rfl, rfl⟩
  · rw [hget]
    by_cases hC : hitsFor expansions .vector id = [] ∧
        hitsFor expansions .keyword id = [] ∧ hitsFor expansions .bm25 id = []
    · simp [hC]
    · simp [hC]
  · simp only [nodeCombinedScores, combined_eq_amended]

/-- C3 witness: the candidate of the sample expansion carries per-signal
maxima 1/2, 0, 0. -/
theorem C3_node_fusion_witness :
    (1/2 : ℚ) = listMax0 (hitsFor [expHalf] .vector "n") ∧
    (0 : ℚ) = listMax0 (hitsFor [expHalf] .keyword "n") ∧
    (0 : ℚ) = listMax0 (hitsFor [expHalf] .bm25 "n") := by
  have hcollect : collectNodeScores [expHalf] = [("n", NodeSignal.mk (1/2) 0 0)] := by
    simp [collectNodeScores, applyHits, updSignal, expHalf, NodeSignal.maxAt]
  have hd : dictGet? (collectNodeScores [expHalf]) "n" =
      some (NodeSignal.mk (1/2) 0 0) := by
    rw [hcollect, dictGet?_cons]
    simp
  exact (C3_node_fusion [expHalf] "n").1 (NodeSignal.mk (1/2) 0 0) hd
